import Mathlib

/-!
Verification of core components of the trivy scanner fork (zhyocean/trivy):
the CBL-Mariner OS-package detector (`pkg/detector/ospkg/mariner/mariner.go`),
the result reconciler (`pkg/detector/ospkg/detect.go`, package `result`), the
image-artifact cache keying, base-layer guessing and per-layer analyzer
dispatch (`pkg/fanal/artifact/image`), and the Dockerfile-from-history config
analyzer (`pkg/fanal/analyzer/imgconf/dockerfile`).

External collaborators (the RPM version library, the advisory source, the
`rego` policy engine, the `time` standard library, `cache.CalcKey`,
`image.GuessBaseImageIndex`) are abstracted as parameters or modelled from the
specification; every such definition says so in its doc comment.
-/

namespace Trivy

/-- Advisory record delivered by the advisory source (external `trivy-db`):
`{id, fixedVersion?, dataSource}`.  `DataSource` is kept opaque as a string. -/
structure Advisory where
  VulnerabilityID : String
  FixedVersion : String
  DataSource : String
deriving DecidableEq, Repr, Inhabited

/-- An installed OS package (`ftypes.Package`), restricted to the fields the
embedded detector code reads: binary name/epoch/version/release, the source
package name/epoch/version/release, the package ref and the layer (opaque). -/
structure Package where
  Name : String
  Epoch : Int
  Version : String
  Release : String
  SrcName : String
  SrcEpoch : Int
  SrcVersion : String
  SrcRelease : String
  Ref : String
  Layer : String
deriving DecidableEq, Repr, Inhabited

/-- `types.DetectedVulnerability`, restricted to the fields set or read by the
embedded code (detector and result filter).  `Layer` and `DataSource` are
opaque strings. -/
structure DetectedVulnerability where
  VulnerabilityID : String
  PkgName : String
  PkgPath : String
  InstalledVersion : String
  FixedVersion : String
  PkgRef : String
  Layer : String
  DataSource : String
  Severity : String
deriving DecidableEq, Repr, Inhabited

/-- Modelled from the spec: `utils.FormatVersion` / `utils.FormatSrcVersion`
(`pkg/scanner/utils`, a package of this repository not included in the given
sources).  Per spec §4.7 the ecosystem version is `epoch:version-release`
"where applicable": the release is appended after `-` when non-empty and the
epoch is prepended before `:` when non-zero. -/
def formatVersion (epoch : Int) (ver rel : String) : String :=
  let v := if rel = "" then ver else ver ++ "-" ++ rel
  if epoch = 0 then v else toString epoch ++ ":" ++ v

/-- `utils.FormatVersion pkg`: the binary package version (`InstalledVersion`). -/
def FormatVersion (pkg : Package) : String :=
  formatVersion pkg.Epoch pkg.Version pkg.Release

/-- `utils.FormatSrcVersion pkg`: the source package version compared against
advisories by RPM-family drivers. -/
def FormatSrcVersion (pkg : Package) : String :=
  formatVersion pkg.SrcEpoch pkg.SrcVersion pkg.SrcRelease

/-- Interface of the external RPM version library
(`github.com/knqyf263/go-rpm-version`; spec §2 "Version Comparator (leaf) …
Pure function", an external collaborator).  `lt a b` models
`NewVersion(a).LessThan(NewVersion(b))`; `render s` models
`NewVersion(s).String()`. -/
structure RpmLib where
  lt : String → String → Bool
  render : String → String

/-- Numeric value of a run of decimal digit characters. -/
def digitsToNat (cs : List Char) : Nat :=
  cs.foldl (fun acc c => acc * 10 + (c.toNat - '0'.toNat)) 0

/-- Maximal runs of decimal digits of a character list, as numbers (`acc`
holds the current run reversed). -/
def rpmSegsAux : List Char → List Char → List Nat
  | [], acc => if acc = [] then [] else [digitsToNat acc.reverse]
  | c :: rest, acc =>
    if c.isDigit then rpmSegsAux rest (c :: acc)
    else if acc = [] then rpmSegsAux rest []
    else digitsToNat acc.reverse :: rpmSegsAux rest []

/-- Modelled from the spec: the RPM Version Comparator leaf, restricted to
dotted numeric `version-release` strings, on which RPM ordering is the
lexicographic comparison of the numeric segments (and a string renders back
to itself).  Used to instantiate `RpmLib` on concrete inputs. -/
def rpmNumSegments (s : String) : List Nat :=
  rpmSegsAux s.toList []

/-- Lexicographic order on the numeric segments (shorter list is older). -/
def rpmSegLt : List Nat → List Nat → Bool
  | [], [] => false
  | [], _ :: _ => true
  | _ :: _, [] => false
  | a :: as, b :: bs => if a < b then true else if b < a then false else rpmSegLt as bs

/-- Concrete demonstration instance of the RPM library on simple numeric
versions; rendering is the identity there. -/
def rpmDemo : RpmLib :=
  { lt := fun a b => rpmSegLt (rpmNumSegments a) (rpmNumSegments b)
    render := id }

/-! ### Go string primitives

The Go standard-library string operations used by the embedded code, written
as structural recursions over the character list so that all definitions
evaluate inside the kernel. -/

/-- `strings.HasPrefix s p` (also the guard of `strings.TrimPrefix`). -/
def goHasLead (s p : String) : Bool :=
  p.toList.isPrefixOf s.toList

/-- `strings.TrimPrefix s p`. -/
def trimLead (s p : String) : String :=
  if goHasLead s p then String.mk (s.toList.drop p.toList.length) else s

/-- `strings.TrimSpace` (whitespace per `Char.isWhitespace`; Go trims by
`unicode.IsSpace`, identical on ASCII). -/
def goTrimSpace (s : String) : String :=
  String.mk (((s.toList.dropWhile Char.isWhitespace).reverse.dropWhile Char.isWhitespace).reverse)

/-- `strings.Fields`: maximal runs of non-whitespace characters (`acc` holds
the current run reversed). -/
def goFieldsAux : List Char → List Char → List String
  | [], acc => if acc = [] then [] else [String.mk acc.reverse]
  | c :: rest, acc =>
    if c.isWhitespace then
      if acc = [] then goFieldsAux rest []
      else String.mk acc.reverse :: goFieldsAux rest []
    else goFieldsAux rest (c :: acc)

/-- `strings.Fields`. -/
def goFields (s : String) : List String :=
  goFieldsAux s.toList []

/-- `strings.Join xs sep`. -/
def goJoin (sep : String) : List String → String
  | [] => ""
  | [x] => x
  | x :: xs => x ++ sep ++ goJoin sep xs

/-- One fuel-step list form of `strings.ReplaceAll`: replace left-to-right,
non-overlapping; the fuel (one unit per emitted character position) makes the
recursion structural, and suffices whenever the pattern is non-empty. -/
def replaceAllAux (pat rep : List Char) : Nat → List Char → List Char
  | 0, l => l
  | fuel + 1, l =>
    match l with
    | [] => []
    | c :: rest =>
      if pat.isPrefixOf l then rep ++ replaceAllAux pat rep fuel (l.drop pat.length)
      else c :: replaceAllAux pat rep fuel rest

/-- `strings.ReplaceAll s pat rep` (the embedded code only uses non-empty
patterns, for which the fuel `s.length` is sufficient). -/
def goReplaceAll (s pat rep : String) : String :=
  String.mk (replaceAllAux pat.toList rep.toList s.toList.length s.toList)

/-- Go string `<` on the character lists (lexicographic; on UTF-8 the byte
order Go uses agrees with this code-point order). -/
def goStrLtChars : List Char → List Char → Bool
  | [], [] => false
  | [], _ :: _ => true
  | _ :: _, [] => false
  | a :: as, b :: bs => if a < b then true else if b < a then false else goStrLtChars as bs

/-- Go string `<`. -/
def goStrLt (a b : String) : Bool :=
  goStrLtChars a.toList b.toList

/-- Go string `<=`. -/
def goStrLe (a b : String) : Bool :=
  !goStrLt b a

/-! ## The CBL-Mariner driver (`pkg/detector/ospkg/mariner/mariner.go`) -/

/-- `osVer[:strings.LastIndex(osVer, ".")]`: the characters strictly before the
last `'.'` of `s` (callers establish that a `'.'` occurs). -/
def beforeLastDot (s : String) : String :=
  String.mk (((s.toList.reverse.dropWhile (fun c => c ≠ '.')).drop 1).reverse)

/-- The OS-version normalization at the top of `mariner.Scanner.Detect`:
`if strings.Count(osVer, ".") > 1 { osVer = osVer[:strings.LastIndex(osVer, ".")] }`. -/
def marinerNormalizeOsVer (osVer : String) : String :=
  if 1 < osVer.toList.count '.' then beforeLastDot osVer else osVer

/-- The `DetectedVulnerability` literal built in the advisory loop of
`mariner.Scanner.Detect` (before `FixedVersion` is possibly set). -/
def marinerBaseVuln (pkg : Package) (adv : Advisory) : DetectedVulnerability :=
  { VulnerabilityID := adv.VulnerabilityID
    PkgName := pkg.Name
    PkgPath := ""
    InstalledVersion := FormatVersion pkg
    FixedVersion := ""
    PkgRef := pkg.Ref
    Layer := pkg.Layer
    DataSource := adv.DataSource
    Severity := "" }

/-- The inner advisory loop of `mariner.Scanner.Detect`, appending to the
accumulator `vulns`: an advisory with empty `FixedVersion` is appended as an
unpatched finding; otherwise the finding is appended with
`FixedVersion = fixedVersion.String()` when `sourceVersion.LessThan(fixedVersion)`. -/
def marinerAdvLoop (lib : RpmLib) (pkg : Package) :
    List Advisory → List DetectedVulnerability → List DetectedVulnerability
  | [], vulns => vulns
  | adv :: advs, vulns =>
    let vuln := marinerBaseVuln pkg adv
    if adv.FixedVersion = "" then
      marinerAdvLoop lib pkg advs (vulns ++ [vuln])
    else if lib.lt (FormatSrcVersion pkg) adv.FixedVersion then
      marinerAdvLoop lib pkg advs
        (vulns ++ [{ vuln with FixedVersion := lib.render adv.FixedVersion }])
    else
      marinerAdvLoop lib pkg advs vulns

/-- The outer package loop of `mariner.Scanner.Detect`; `vsGet` models the
advisory-source lookup `s.vs.Get(osVer, pkg.SrcName)` (external `trivy-db`),
whose failure aborts the whole detection. -/
def marinerPkgLoop (lib : RpmLib) (vsGet : String → String → Except String (List Advisory))
    (osVer : String) :
    List Package → List DetectedVulnerability → Except String (List DetectedVulnerability)
  | [], vulns => .ok vulns
  | pkg :: pkgs, vulns =>
    match vsGet osVer pkg.SrcName with
    | .error e => .error ("failed to get CBL-Mariner advisories: " ++ e)
    | .ok advisories =>
        marinerPkgLoop lib vsGet osVer pkgs (marinerAdvLoop lib pkg advisories vulns)

/-- `mariner.Scanner.Detect`: normalize the OS version, then run the package
loop with an empty accumulator. -/
def marinerDetect (lib : RpmLib) (vsGet : String → String → Except String (List Advisory))
    (osVer : String) (pkgs : List Package) : Except String (List DetectedVulnerability) :=
  marinerPkgLoop lib vsGet (marinerNormalizeOsVer osVer) pkgs []

/-- The per-advisory result described by claim C1, for comparison with the
implementation: empty `fixedVersion` ⇒ unpatched finding with empty
`FixedVersion`; otherwise a finding carrying the advisory's `fixedVersion`
exactly when the source version is strictly below it; no finding otherwise. -/
def marinerAdvVulnClaim (lt : String → String → Bool) (pkg : Package) (adv : Advisory) :
    Option DetectedVulnerability :=
  if adv.FixedVersion = "" then some (marinerBaseVuln pkg adv)
  else if lt (FormatSrcVersion pkg) adv.FixedVersion then
    some { marinerBaseVuln pkg adv with FixedVersion := adv.FixedVersion }
  else none

/-! ## Result reconciliation (`pkg/detector/ospkg/detect.go`, package `result`) -/

/-- Modelled from the spec: the external `trivy-db` severity enumeration
(`dbTypes.Severity`) with its `String()` rendering. -/
inductive Severity where
  | unknown
  | low
  | medium
  | high
  | critical
deriving DecidableEq, Repr

/-- `dbTypes.Severity.String()`. -/
def Severity.goStr : Severity → String
  | .unknown => "UNKNOWN"
  | .low => "LOW"
  | .medium => "MEDIUM"
  | .high => "HIGH"
  | .critical => "CRITICAL"

/-- `types.MisconfStatus`. -/
inductive MisconfStatus where
  | failure
  | passed
  | exception
deriving DecidableEq, Repr, Inhabited

/-- `types.DetectedMisconfiguration`, restricted to the fields the filter reads. -/
structure DetectedMisconfiguration where
  ID : String
  AVDID : String
  Severity : String
  Status : MisconfStatus
deriving DecidableEq, Repr, Inhabited

/-- `types.MisconfSummary`. -/
structure MisconfSummary where
  Successes : Nat
  Failures : Nat
  Exceptions : Nat
deriving DecidableEq, Repr, Inhabited

/-- `MisconfSummary.Empty()`. -/
def MisconfSummary.Empty (s : MisconfSummary) : Bool :=
  s.Successes = 0 && s.Failures = 0 && s.Exceptions = 0

/-- `ftypes.SecretFinding`, restricted to the fields the filter reads. -/
structure SecretFinding where
  RuleID : String
  Severity : String
deriving DecidableEq, Repr, Inhabited

/-- `types.DetectedLicense`, restricted to the fields the filter reads. -/
structure DetectedLicense where
  Name : String
  Severity : String
deriving DecidableEq, Repr, Inhabited

/-- `types.Result`, restricted to the fields `FilterResult` touches. -/
structure Result where
  Vulnerabilities : List DetectedVulnerability
  Misconfigurations : List DetectedMisconfiguration
  MisconfSummary : Option Trivy.MisconfSummary
  Secrets : List SecretFinding
  Licenses : List DetectedLicense
deriving DecidableEq, Repr, Inhabited

/-- The possible outcomes of evaluating the compiled `data.trivy.ignore` query
on one finding (external `rego` engine): undefined, a boolean value, or a
defined value of some non-boolean type. -/
inductive RegoResult where
  | undefined
  | boolean (b : Bool)
  | nonBoolean
deriving DecidableEq, Repr

/-- An input handed to the policy: a vulnerability or a misconfiguration. -/
def PolicyInput : Type := DetectedVulnerability ⊕ DetectedMisconfiguration

/-- `result.FilterOption`.  The ignore file is modelled by its list of lines
(`none` when the file cannot be opened) and the policy file by the semantic
query it compiles to (`none` when `opt.PolicyFile == ""`). -/
structure FilterOption where
  Severities : List Severity
  IgnoreUnfixed : Bool
  IncludeNonFailures : Bool
  IgnoreFile : Option (List String)
  PolicyFile : Option (PolicyInput → RegoResult)
  IgnoreLicenses : List String
  VEXPath : String

/-- `shouldOverwrite`: keep `new` over `old` exactly when `old.FixedVersion`
is lexicographically below `new.FixedVersion` (Go string `<`). -/
def shouldOverwrite (old new : DetectedVulnerability) : Bool :=
  goStrLt old.FixedVersion new.FixedVersion

/-- The dedup key `fmt.Sprintf("%s/%s/%s/%s", id, pkgName, installedVersion, pkgPath)`. -/
def vulnKey (v : DetectedVulnerability) : String :=
  v.VulnerabilityID ++ "/" ++ v.PkgName ++ "/" ++ v.InstalledVersion ++ "/" ++ v.PkgPath

/-- Association-list model of a Go `map`: lookup. -/
def mapGet {α : Type} (k : String) : List (String × α) → Option α
  | [] => none
  | (k', v') :: rest => if k' = k then some v' else mapGet k rest

/-- Association-list model of a Go `map`: insert-or-replace.  Go map iteration
order is unspecified; the model keeps keys in first-insertion order, a
deterministic refinement. -/
def mapPut {α : Type} (k : String) (v : α) : List (String × α) → List (String × α)
  | [] => [(k, v)]
  | (k', v') :: rest => if k' = k then (k, v) :: rest else (k', v') :: mapPut k v rest

/-- The inner `for _, s := range severities` loop of `filterVulnerabilities`:
`continue` moves to the next severity, `break` (after `uniqVulns[key] = vuln`)
returns the updated map. -/
def fvSevLoop (ignoreUnfixed : Bool) (ignoredIDs : List String)
    (vuln : DetectedVulnerability) (uniq : List (String × DetectedVulnerability)) :
    List Severity → List (String × DetectedVulnerability)
  | [] => uniq
  | s :: rest =>
    if s.goStr ≠ vuln.Severity then fvSevLoop ignoreUnfixed ignoredIDs vuln uniq rest
    else if ignoreUnfixed && vuln.FixedVersion = "" then
      fvSevLoop ignoreUnfixed ignoredIDs vuln uniq rest
    else if ignoredIDs.contains vuln.VulnerabilityID then
      fvSevLoop ignoreUnfixed ignoredIDs vuln uniq rest
    else
      match mapGet (vulnKey vuln) uniq with
      | some old =>
        if !shouldOverwrite old vuln then fvSevLoop ignoreUnfixed ignoredIDs vuln uniq rest
        else mapPut (vulnKey vuln) vuln uniq
      | none => mapPut (vulnKey vuln) vuln uniq

/-- The outer `for _, vuln := range vulns` loop of `filterVulnerabilities`,
threading the `uniqVulns` map; a blank severity is first defaulted to
`UNKNOWN`. -/
def fvLoop (severities : List Severity) (ignoreUnfixed : Bool) (ignoredIDs : List String) :
    List DetectedVulnerability → List (String × DetectedVulnerability) →
    List (String × DetectedVulnerability)
  | [], uniq => uniq
  | vuln :: rest, uniq =>
    let vuln := if vuln.Severity = "" then { vuln with Severity := Severity.unknown.goStr } else vuln
    fvLoop severities ignoreUnfixed ignoredIDs rest
      (fvSevLoop ignoreUnfixed ignoredIDs vuln uniq severities)

/-- `filterVulnerabilities`.  The Go function ends with `maps.Values(uniqVulns)`
whose order is unspecified; the model returns the values in first-insertion
order.  `vexPath` is accepted and ignored, as in the source. -/
def filterVulnerabilities (vulns : List DetectedVulnerability) (severities : List Severity)
    (ignoreUnfixed : Bool) (ignoredIDs : List String) (vexPath : String) :
    List DetectedVulnerability :=
  (fvLoop severities ignoreUnfixed ignoredIDs vulns []).map Prod.snd

/-- `summarize`: bump the counter matching the status. -/
def summarize (status : MisconfStatus) (s : MisconfSummary) : MisconfSummary :=
  match status with
  | .failure => { s with Failures := s.Failures + 1 }
  | .passed => { s with Successes := s.Successes + 1 }
  | .exception => { s with Exceptions := s.Exceptions + 1 }

/-- The inner severity loop of `filterMisconfigurations`: returns the updated
summary and whether the misconfiguration was appended (`break`). -/
def fmSevLoop (includeNonFailures : Bool) (ignoredIDs : List String)
    (m : DetectedMisconfiguration) (summary : MisconfSummary) :
    List Severity → MisconfSummary × Bool
  | [] => (summary, false)
  | s :: rest =>
    if s.goStr = m.Severity then
      if ignoredIDs.contains m.ID || ignoredIDs.contains m.AVDID then
        fmSevLoop includeNonFailures ignoredIDs m summary rest
      else
        let summary := summarize m.Status summary
        if m.Status ≠ .failure && !includeNonFailures then
          fmSevLoop includeNonFailures ignoredIDs m summary rest
        else (summary, true)
    else fmSevLoop includeNonFailures ignoredIDs m summary rest

/-- The outer loop of `filterMisconfigurations`, threading summary and the
`filtered` accumulator. -/
def fmLoop (severities : List Severity) (includeNonFailures : Bool) (ignoredIDs : List String) :
    List DetectedMisconfiguration → MisconfSummary → List DetectedMisconfiguration →
    MisconfSummary × List DetectedMisconfiguration
  | [], summary, filtered => (summary, filtered)
  | m :: rest, summary, filtered =>
    let r := fmSevLoop includeNonFailures ignoredIDs m summary severities
    fmLoop severities includeNonFailures ignoredIDs rest r.1
      (if r.2 then filtered ++ [m] else filtered)

/-- `filterMisconfigurations`: run the loop from a zero summary, and return
`(nil, nil)` when the summary is empty. -/
def filterMisconfigurations (misconfs : List DetectedMisconfiguration)
    (severities : List Severity) (includeNonFailures : Bool) (ignoredIDs : List String) :
    Option MisconfSummary × List DetectedMisconfiguration :=
  let r := fmLoop severities includeNonFailures ignoredIDs misconfs ⟨0, 0, 0⟩ []
  if r.1.Empty then (none, []) else (some r.1, r.2)

/-- The inner severity loop of `filterSecrets`: the secret is appended at the
first matching severity unless its rule id is ignored. -/
def fsSevLoop (ignoredIDs : List String) (secret : SecretFinding) : List Severity → Bool
  | [] => false
  | s :: rest =>
    if s.goStr = secret.Severity then
      if ignoredIDs.contains secret.RuleID then fsSevLoop ignoredIDs secret rest
      else true
    else fsSevLoop ignoredIDs secret rest

/-- `filterSecrets`. -/
def filterSecrets (secrets : List SecretFinding) (severities : List Severity)
    (ignoredIDs : List String) : List SecretFinding :=
  secrets.foldl
    (fun filtered secret =>
      if fsSevLoop ignoredIDs secret severities then filtered ++ [secret] else filtered) []

/-- `filterLicenses`: `nil` for an empty input, otherwise `lo.Filter` keeping
licenses not in the ignored-name list whose severity matches. -/
def filterLicenses (licenses : List DetectedLicense) (severities : List Severity)
    (ignoredLicenses : List String) : List DetectedLicense :=
  if licenses.length = 0 then []
  else licenses.filter fun l =>
    !(ignoredLicenses.contains l.Name) && severities.any (fun s => s.goStr = l.Severity)

/-- `evaluate`: an undefined query result means "not ignored"; a boolean is
returned as is; a defined non-boolean is the fatal error
"the policy must return boolean". -/
def evaluate (res : RegoResult) : Except String Bool :=
  match res with
  | .undefined => .ok false
  | .boolean b => .ok b
  | .nonBoolean => .error "the policy must return boolean"

/-- The vulnerability loop of `applyPolicy`: evaluation failure aborts; a
finding evaluating to `true` is skipped, otherwise appended. -/
def applyPolicyVulns (policy : PolicyInput → RegoResult) :
    List DetectedVulnerability → List DetectedVulnerability →
    Except String (List DetectedVulnerability)
  | [], filtered => .ok filtered
  | v :: rest, filtered =>
    match evaluate (policy (.inl v)) with
    | .error e => .error e
    | .ok true => applyPolicyVulns policy rest filtered
    | .ok false => applyPolicyVulns policy rest (filtered ++ [v])

/-- The misconfiguration loop of `applyPolicy`. -/
def applyPolicyMisconfs (policy : PolicyInput → RegoResult) :
    List DetectedMisconfiguration → List DetectedMisconfiguration →
    Except String (List DetectedMisconfiguration)
  | [], filtered => .ok filtered
  | m :: rest, filtered =>
    match evaluate (policy (.inr m)) with
    | .error e => .error e
    | .ok true => applyPolicyMisconfs policy rest filtered
    | .ok false => applyPolicyMisconfs policy rest (filtered ++ [m])

/-- `applyPolicy` (policy reading/compilation abstracted into the function
`policy`): evaluate every vulnerability, then every misconfiguration. -/
def applyPolicy (policy : PolicyInput → RegoResult) (vulns : List DetectedVulnerability)
    (misconfs : List DetectedMisconfiguration) :
    Except String (List DetectedVulnerability × List DetectedMisconfiguration) :=
  match applyPolicyVulns policy vulns [] with
  | .error e => .error e
  | .ok fv =>
    match applyPolicyMisconfs policy misconfs [] with
    | .error e => .error e
    | .ok fm => .ok (fv, fm)

/-! ### Ignore file parsing (`getIgnoredIDs`, `getExpirationDate`) -/

/-- Modelled from the spec: a calendar date, the value of a parsed
`exp:YYYY-MM-DD` field (`time` standard library, external). -/
structure Date where
  year : Nat
  month : Nat
  day : Nat
deriving DecidableEq, Repr, Inhabited

/-- Gregorian leap years (proleptic, as used by Go's `time`). -/
def isLeapYear (y : Nat) : Bool :=
  y % 4 = 0 && (y % 100 ≠ 0 || y % 400 = 0)

/-- Days in a month. -/
def daysInMonth (y m : Nat) : Nat :=
  if m = 2 then (if isLeapYear y then 29 else 28)
  else if m = 4 || m = 6 || m = 9 || m = 11 then 30
  else 31

/-- Modelled from the spec: `time.Parse("2006-01-02", s)` (external standard
library) — exactly four year digits, a dash, two month digits (01–12), a dash,
two day digits valid for that month; anything else fails. -/
def parseDate (s : String) : Option Date :=
  match s.toList with
  | [y1, y2, y3, y4, '-', m1, m2, '-', d1, d2] =>
    if ([y1, y2, y3, y4, m1, m2, d1, d2].all Char.isDigit) then
      let y := digitsToNat [y1, y2, y3, y4]
      let m := digitsToNat [m1, m2]
      let d := digitsToNat [d1, d2]
      if 1 ≤ m && m ≤ 12 && 1 ≤ d && d ≤ daysInMonth y m then some ⟨y, m, d⟩ else none
    else none
  | _ => none

/-- The zero `time.Time` is midnight UTC of January 1 of year 1. -/
def zeroDate : Date := ⟨1, 1, 1⟩

/-- `time.Time.IsZero` for a parsed date. -/
def Date.IsZero (d : Date) : Bool := d = zeroDate

/-- An order embedding of date midnights into instants: the clock value `now`
lives on a scale where each date's midnight is an even point, so `now` may
fall strictly between two consecutive midnights. -/
def Date.instant (d : Date) : Nat :=
  2 * ((d.year * 100 + d.month) * 100 + d.day)

/-- `exp.Before(now)`. -/
def Date.IsBefore (d : Date) (now : Nat) : Bool := d.instant < now

/-- `getExpirationDate`: return the parse of the first field starting with
`exp:`; the zero date stands for the zero `time.Time` returned when no field
matches; `.error` models a parse failure. -/
def getExpirationDate : List String → Except Unit Date
  | [] => .ok zeroDate
  | f :: rest =>
    if goHasLead f "exp:" then
      match parseDate (String.mk (f.toList.drop 4)) with
      | some d => .ok d
      | none => .error ()
    else getExpirationDate rest

/-- The body of the line loop in `getIgnoredIDs`: the id contributed by one
line, if any.  Comments and blank lines contribute nothing; on a multi-field
line an unparseable expiration date contributes nothing (logged in Go), and a
parsed non-zero date strictly before `now` deactivates the line. -/
def ignoreLineID (now : Nat) (line : String) : Option String :=
  let line := goTrimSpace line
  if goHasLead line "#" || line = "" then none
  else
    let fields := goFields line
    if 1 < fields.length then
      match getExpirationDate fields with
      | .error _ => none
      | .ok exp =>
        if !exp.IsZero && exp.IsBefore now then none
        else some (fields.headD "")
    else some (fields.headD "")

/-- `getIgnoredIDs`: `none` models a file that does not exist or cannot be
opened (the function then returns `nil`); otherwise the scanner's line loop
appends the surviving first fields in order. -/
def getIgnoredIDs (file : Option (List String)) (now : Nat) : List String :=
  match file with
  | none => []
  | some lines =>
    lines.foldl
      (fun acc line =>
        match ignoreLineID now line with
        | some i => acc ++ [i]
        | none => acc) []

/-- The first field starting with `exp:` in a field list, if any. -/
def firstExpField : List String → Option String
  | [] => none
  | f :: rest => if goHasLead f "exp:" then some f else firstExpField rest

/-- The C6 claim read literally: the `exp:` field is looked for only among the
*remaining* fields (all fields but the first), and a parsed date strictly
before `now` always deactivates the line — no special case for the zero
date. -/
def ignoreLineIDClaim (now : Nat) (line : String) : Option String :=
  let line := goTrimSpace line
  if goHasLead line "#" || line = "" then none
  else
    match goFields line with
    | [] => none
    | f0 :: rest =>
      match firstExpField rest with
      | none => some f0
      | some f =>
        match parseDate (String.mk (f.toList.drop 4)) with
        | none => none
        | some d => if d.IsBefore now then none else some f0

/-- The C6 claim applied to a whole ignore file. -/
def getIgnoredIDsClaim (file : Option (List String)) (now : Nat) : List String :=
  match file with
  | none => []
  | some lines => lines.filterMap (ignoreLineIDClaim now)

/-- C6 amended, written in the spec's shape (a filter over lines): the active
IDs are the first fields of the lines that, after trimming, are non-blank and
not comments, where a line with at least two fields is additionally checked
against its first `exp:`-prefixed field — searched among *all* fields, the
first included: an unparseable date drops the line, and a parsed date other
than the zero date `0001-01-01` that is strictly before `now` deactivates
it (a date equal to the zero date never deactivates). -/
def ignoreLineIDAmended (now : Nat) (l : String) : Option String :=
  let line := goTrimSpace l
  if goHasLead line "#" || line = "" then none
  else
    let fields := goFields line
    if fields.length ≤ 1 then some (fields.headD "")
    else
      match firstExpField fields with
      | none => some (fields.headD "")
      | some f =>
        match parseDate (String.mk (f.toList.drop 4)) with
        | none => none
        | some d =>
          if !d.IsZero && d.IsBefore now then none else some (fields.headD "")

/-- C6 amended, applied to a whole ignore file. -/
def getIgnoredIDsAmended (file : Option (List String)) (now : Nat) : List String :=
  match file with
  | none => []
  | some lines => lines.filterMap (ignoreLineIDAmended now)

/-! ### Sorting and `FilterResult` -/

/-- Modelled from the spec: the severity rank behind `types.BySeverity`
(`pkg/types`, a package of this repository not included in the given
sources) — `UNKNOWN < LOW < MEDIUM < HIGH < CRITICAL`, unrecognized strings
ranking as `UNKNOWN`. -/
def sevValue (s : String) : Nat :=
  if s = "LOW" then 1
  else if s = "MEDIUM" then 2
  else if s = "HIGH" then 3
  else if s = "CRITICAL" then 4
  else 0

/-- Modelled from the spec: the `types.BySeverity` order — severity
descending, ties broken by vulnerability id (spec §4.8 step 6). -/
def bySeverity (a b : DetectedVulnerability) : Prop :=
  sevValue b.Severity < sevValue a.Severity ∨
    (sevValue a.Severity = sevValue b.Severity ∧
      goStrLe a.VulnerabilityID b.VulnerabilityID = true)

instance : DecidableRel bySeverity := fun a b => by
  unfold bySeverity
  infer_instance

/-- `sort.Sort(types.BySeverity(filteredVulns))`, modelled as a deterministic
(stable) sort by the same order. -/
def sortVulns (l : List DetectedVulnerability) : List DetectedVulnerability :=
  l.insertionSort bySeverity

/-- `result.FilterResult` (the `ctx` argument carries no semantics in the
model).  The Go function mutates `result` in place: secrets and licenses are
assigned before the policy runs, so on a policy error (`some msg` in the
second component) they are already updated while vulnerabilities,
misconfigurations and the summary are untouched. -/
def FilterResult (now : Nat) (result : Result) (opt : FilterOption) : Result × Option String :=
  let ignoredIDs := getIgnoredIDs opt.IgnoreFile now
  let filteredVulns :=
    filterVulnerabilities result.Vulnerabilities opt.Severities opt.IgnoreUnfixed ignoredIDs
      opt.VEXPath
  let fm := filterMisconfigurations result.Misconfigurations opt.Severities
    opt.IncludeNonFailures ignoredIDs
  let result := { result with
    Secrets := filterSecrets result.Secrets opt.Severities ignoredIDs
    Licenses := filterLicenses result.Licenses opt.Severities opt.IgnoreLicenses }
  match opt.PolicyFile with
  | some policy =>
    match applyPolicy policy filteredVulns fm.2 with
    | .error e => (result, some ("failed to apply the policy: " ++ e))
    | .ok r =>
      ({ result with
          Vulnerabilities := sortVulns r.1
          Misconfigurations := r.2
          MisconfSummary := fm.1 }, none)
  | none =>
    ({ result with
        Vulnerabilities := sortVulns filteredVulns
        Misconfigurations := fm.2
        MisconfSummary := fm.1 }, none)

/-! ## The image artifact inspector (`pkg/fanal/artifact/image`) -/

/-- Modelled from the spec: the analysis-relevant subset of `artifact.Option`
(`pkg/fanal/artifact`, a package of this repository not included in the given
sources), per spec §4.1 — file patterns, disabled analyzers, scanner options
(kept opaque), file-checksum and offline mode, and the `Slow` flag. -/
structure ArtifactOption where
  FilePatterns : List String
  DisabledAnalyzers : List String
  MisconfScannerOption : String
  SecretScannerOption : String
  LicenseScannerOption : String
  FileChecksum : Bool
  Offline : Bool
  Slow : Bool
deriving DecidableEq, Repr, Inhabited

/-- The zero value `artifact.Option{}` passed to the image-key computation. -/
def ArtifactOption.zero : ArtifactOption :=
  { FilePatterns := []
    DisabledAnalyzers := []
    MisconfScannerOption := ""
    SecretScannerOption := ""
    LicenseScannerOption := ""
    FileChecksum := false
    Offline := false
    Slow := false }

/-- The fields of the image `Artifact` struct that `calcCacheKeys` reads:
`a.configAnalyzer.AnalyzerVersions()`, `a.analyzer.AnalyzerVersions()`,
`a.handlerManager.Versions()` (version maps as association lists) and
`a.artifactOption`. -/
structure ImageArtifact where
  configAnalyzerVersions : List (String × Nat)
  analyzerVersions : List (String × Nat)
  handlerVersions : List (String × Nat)
  artifactOption : ArtifactOption

/-- The `for _, diffID := range diffIDs` loop of `Artifact.calcCacheKeys`,
appending each blob key; a `cache.CalcKey` failure aborts. -/
def layerKeysLoop
    (calcKey : String → List (String × Nat) → Option (List (String × Nat)) → ArtifactOption →
      Except String String)
    (a : ImageArtifact) : List String → List String → Except String (List String)
  | [], acc => .ok acc
  | diffID :: rest, acc =>
    match calcKey diffID a.analyzerVersions (some a.handlerVersions) a.artifactOption with
    | .error e => .error e
    | .ok blobKey => layerKeysLoop calcKey a rest (acc ++ [blobKey])

/-- `Artifact.calcCacheKeys`; `calcKey` models `cache.CalcKey`
(`pkg/fanal/cache`, a package of this repository not included in the given
sources; spec §4.1), with `none` as the `nil` hook-version map.  The image key
is computed from the image ID, the config-analyzer versions, `nil` handler
versions and an empty options struct; each layer key from the diff ID, the
file-analyzer versions, the handler versions and the full options. -/
def calcCacheKeys
    (calcKey : String → List (String × Nat) → Option (List (String × Nat)) → ArtifactOption →
      Except String String)
    (a : ImageArtifact) (imageID : String) (diffIDs : List String) :
    Except String (String × List String) :=
  match calcKey imageID a.configAnalyzerVersions none ArtifactOption.zero with
  | .error e => .error e
  | .ok imageKey =>
    match layerKeysLoop calcKey a diffIDs [] with
    | .error e => .error e
    | .ok layerKeys => .ok (imageKey, layerKeys)

/-- One entry of the image config history (`v1.History`), restricted to the
fields the embedded code reads. -/
structure History where
  CreatedBy : String
  EmptyLayer : Bool
deriving DecidableEq, Repr, Inhabited

/-- `v1.HealthConfig`, the healthcheck data of the image config.  Durations
are `int64` nanosecond counts. -/
structure Healthcheck where
  Test : List String
  Interval : Int
  Timeout : Int
  StartPeriod : Int
  Retries : Int
deriving DecidableEq, Repr, Inhabited

/-- The image config file (`v1.ConfigFile`), restricted to the fields the
embedded code reads.  The Go healthcheck is a pointer which
`historyAnalyzer.Analyze` dereferences unconditionally; the model covers the
executions where it is non-nil. -/
structure ConfigFile where
  History : List History
  Healthcheck : Healthcheck
deriving DecidableEq, Repr, Inhabited

/-- `LayerInfo` (the per-layer data stored in `layerKeyMap`). -/
structure LayerInfo where
  DiffID : String
  CreatedBy : String
deriving DecidableEq, Repr, Inhabited

/-- The analyzer type enumeration, restricted to the constants the embedded
code names. -/
inductive AnalyzerType where
  | typeSecret
  | typeHistoryDockerfile
  | typeOther (name : String)
deriving DecidableEq, Repr

/-- The loop of `Artifact.guessBaseLayers`: walk the history entries while the
index is at most `baseImageIndex` (the result of `image.GuessBaseImageIndex`,
`pkg/fanal/image`, not included in the given sources), skip empty layers, and
collect the diff IDs in order; if the diff-ID index runs out the whole
function returns `nil` ("something wrong"). -/
def baseLayersLoop (diffIDs : List String) (baseImageIndex : Int) :
    List History → Nat → Nat → List String → List String
  | [], _, _, acc => acc
  | h :: rest, i, diffIDIndex, acc =>
    if (i : Int) > baseImageIndex then acc
    else if h.EmptyLayer then baseLayersLoop diffIDs baseImageIndex rest (i + 1) diffIDIndex acc
    else if diffIDs.length ≤ diffIDIndex then []
    else baseLayersLoop diffIDs baseImageIndex rest (i + 1) (diffIDIndex + 1)
      (acc ++ [diffIDs.getD diffIDIndex ""])

/-- `Artifact.guessBaseLayers`: `nil` for a `nil` config file, otherwise the
loop from the start of the history. -/
def guessBaseLayers (baseImageIndex : Int) (diffIDs : List String)
    (configFile : Option ConfigFile) : List String :=
  match configFile with
  | none => []
  | some cfg => baseLayersLoop diffIDs baseImageIndex cfg.History 0 0 []

/-- The per-layer body of `Artifact.inspect`, restricted to what it passes to
`inspectLayer`: the layer info looked up in `layerKeyMap` (a Go map read,
yielding the zero value when absent) and the disabled-analyzer list, which is
`nil` grown by `analyzer.TypeSecret` exactly when the layer's diff ID is a
base diff ID.  The pipeline's worker parallelism (1 when `Slow`, else 5) is
not modelled; the body is applied to each element of `layerKeys` in order. -/
def inspectCalls (baseDiffIDs : List String) (layerKeyMap : List (String × LayerInfo))
    (layerKeys : List String) : List (LayerInfo × List AnalyzerType) :=
  layerKeys.map fun layerKey =>
    let layer := (mapGet layerKey layerKeyMap).getD default
    let disabledAnalyzers : List AnalyzerType :=
      if baseDiffIDs.contains layer.DiffID then [] ++ [.typeSecret] else []
    (layer, disabledAnalyzers)

/-! ## The Dockerfile-from-history analyzer
(`pkg/fanal/analyzer/imgconf/dockerfile`) -/

/-- The `HEALTHCHECK` line synthesized by `historyAnalyzer.Analyze` from the
config's healthcheck fields; `durStr` models the external
`time.Duration.String` rendering used by `fmt.Sprintf("%s", d)`.  Each flag is
emitted only when its field is non-zero; the test command is joined with
spaces and every `CMD-SHELL` is rewritten to `CMD`. -/
def healthcheckLine (durStr : Int → String) (hc : Healthcheck) : String :=
  let interval := if hc.Interval ≠ 0 then "--interval=" ++ durStr hc.Interval ++ " " else ""
  let timeout := if hc.Timeout ≠ 0 then "--timeout=" ++ durStr hc.Timeout ++ " " else ""
  let startPeriod :=
    if hc.StartPeriod ≠ 0 then "--startPeriod=" ++ durStr hc.StartPeriod ++ " " else ""
  let retries := if hc.Retries ≠ 0 then "--retries=" ++ toString hc.Retries ++ " " else ""
  let command := goReplaceAll (goJoin " " hc.Test) "CMD-SHELL" "CMD"
  "HEALTHCHECK " ++ interval ++ timeout ++ startPeriod ++ retries ++ command

/-- The `createdBy` computed for one history entry by the `switch` in
`historyAnalyzer.Analyze` (unset, hence empty, when no case matches). -/
def historyLine (durStr : Int → String) (cfg : ConfigFile) (h : History) : String :=
  if goHasLead h.CreatedBy "/bin/sh -c #(nop)" then
    trimLead h.CreatedBy "/bin/sh -c #(nop)"
  else if goHasLead h.CreatedBy "/bin/sh -c" then
    goReplaceAll h.CreatedBy "/bin/sh -c" "RUN"
  else if goHasLead h.CreatedBy "USER" then
    h.CreatedBy
  else if goHasLead h.CreatedBy "HEALTHCHECK" then
    healthcheckLine durStr cfg.Healthcheck
  else ""

/-- The buffer-writing loop of `historyAnalyzer.Analyze`:
`dockerfile.WriteString(strings.TrimSpace(createdBy) + "\n")` per entry. -/
def buildDockerfileLoop (durStr : Int → String) (cfg : ConfigFile) :
    List History → String → String
  | [], buf => buf
  | h :: rest, buf =>
    buildDockerfileLoop durStr cfg rest (buf ++ goTrimSpace (historyLine durStr cfg h) ++ "\n")

/-- The pseudo-Dockerfile reconstructed by `historyAnalyzer.Analyze` from the
history entries strictly after `baseLayerIndex`
(`image.GuessBaseImageIndex(input.Config.History)`, `pkg/fanal/image`, not
included in the given sources; it returns at least `-1`, so the loop start
`baseLayerIndex + 1` is modelled by `List.drop` of its `toNat`). -/
def buildDockerfile (durStr : Int → String) (baseLayerIndex : Int) (cfg : ConfigFile) : String :=
  buildDockerfileLoop durStr cfg (cfg.History.drop (baseLayerIndex + 1).toNat) ""

/-- Concrete data for the C1 witness: the spec's "Mariner unpatched" and
"patched/below" scenarios. -/
def c1pkg : Package :=
  { Name := "pkgA", Epoch := 0, Version := "1.2.2", Release := "1",
    SrcName := "pkgA-src", SrcEpoch := 0, SrcVersion := "1.2.2", SrcRelease := "1",
    Ref := "", Layer := "" }

def c1advisories : List Advisory := [⟨"CVE-X", "", "ds"⟩, ⟨"CVE-Y", "1.2.3-1", "ds"⟩]

def c1vsGet : String → String → Except String (List Advisory) :=
  fun v n => if v = "2.0" && n = "pkgA-src" then .ok c1advisories else .ok []

/-- Concrete data for the C2 counterexample: a package whose binary version is
ahead of its source version. -/
def c2pkg : Package :=
  { Name := "pkgA", Epoch := 0, Version := "2.0", Release := "",
    SrcName := "pkgA-src", SrcEpoch := 0, SrcVersion := "1.0", SrcRelease := "",
    Ref := "", Layer := "" }

def c2vsGet : String → String → Except String (List Advisory) :=
  fun _ _ => .ok [⟨"CVE-Y", "1.5", "ds"⟩]

def c2vuln : DetectedVulnerability :=
  { VulnerabilityID := "CVE-Y", PkgName := "pkgA", PkgPath := "", InstalledVersion := "2.0",
    FixedVersion := "1.5", PkgRef := "", Layer := "", DataSource := "ds", Severity := "" }

/-- The severity defaulting at the top of the vulnerability loop. -/
def fvDefault (v : DetectedVulnerability) : DetectedVulnerability :=
  if v.Severity = "" then { v with Severity := Severity.unknown.goStr } else v

/-- Survival of one (severity-defaulted) vulnerability through the severity,
ignore-unfixed and ignored-ID checks. -/
def fvSurvives (severities : List Severity) (ignoreUnfixed : Bool) (ignoredIDs : List String)
    (v : DetectedVulnerability) : Bool :=
  severities.any (fun s => s.goStr = v.Severity) &&
    !(ignoreUnfixed && v.FixedVersion = "") &&
    !(ignoredIDs.contains v.VulnerabilityID)

/-- The net effect of the dedup check and `uniqVulns[key] = vuln`. -/
def fvInsert (v : DetectedVulnerability) (uniq : List (String × DetectedVulnerability)) :
    List (String × DetectedVulnerability) :=
  match mapGet (vulnKey v) uniq with
  | some old => if !shouldOverwrite old v then uniq else mapPut (vulnKey v) v uniq
  | none => mapPut (vulnKey v) v uniq

/-- The per-key fold describing which record a sequence of insertions leaves
in the map: a later record replaces the current one exactly when its
`FixedVersion` is lexicographically greater. -/
def foldBest : Option DetectedVulnerability → List DetectedVulnerability →
    Option DetectedVulnerability
  | o, [] => o
  | none, v :: rest => foldBest (some v) rest
  | some cur, v :: rest =>
    if shouldOverwrite cur v then foldBest (some v) rest
    else foldBest (some cur) rest

/-- Key consistency of the `uniqVulns` map: every stored value's key is its
dedup key. -/
def wfVulnMap (m : List (String × DetectedVulnerability)) : Prop :=
  ∀ p ∈ m, vulnKey p.2 = p.1

/-- Concrete data for the C3 counterexample: two findings with different
`(id, pkgName, installedVersion, pkgPath)` tuples whose slash-joined keys
collide (`CVE-1/a/b/1/` both). -/
def cv3a : DetectedVulnerability :=
  { VulnerabilityID := "CVE-1", PkgName := "a/b", PkgPath := "", InstalledVersion := "1",
    FixedVersion := "", PkgRef := "", Layer := "", DataSource := "", Severity := "LOW" }

def cv3b : DetectedVulnerability :=
  { cv3a with PkgName := "a", InstalledVersion := "b/1" }

/-- Whether some requested severity matches the misconfiguration. -/
def fmMatch (severities : List Severity) (m : DetectedMisconfiguration) : Bool :=
  severities.any (fun s => s.goStr = m.Severity)

/-- Whether the misconfiguration is suppressed by the ignored-ID set. -/
def fmIgnored (ignoredIDs : List String) (m : DetectedMisconfiguration) : Bool :=
  ignoredIDs.contains m.ID || ignoredIDs.contains m.AVDID

/-- Whether the misconfiguration ends up in the filtered list. -/
def fmKeep (severities : List Severity) (includeNonFailures : Bool) (ignoredIDs : List String)
    (m : DetectedMisconfiguration) : Bool :=
  fmMatch severities m && !fmIgnored ignoredIDs m &&
    (decide (m.Status = .failure) || includeNonFailures)

/-- The summary fold over a list of misconfigurations. -/
def summaryFold (ms : List DetectedMisconfiguration) (s : MisconfSummary) : MisconfSummary :=
  ms.foldl (fun s m => summarize m.Status s) s

/-- The grand total of a summary. -/
def summaryTotal (s : MisconfSummary) : Nat :=
  s.Successes + s.Failures + s.Exceptions

/-- Concrete data for the C5 witness: a policy ignoring everything and a
policy producing a non-boolean. -/
def c5vuln : DetectedVulnerability :=
  { VulnerabilityID := "CVE-5", PkgName := "p", PkgPath := "", InstalledVersion := "1",
    FixedVersion := "2", PkgRef := "", Layer := "", DataSource := "", Severity := "HIGH" }

def c5policyTrue : PolicyInput → RegoResult := fun _ => .boolean true

def c5policyBad : PolicyInput → RegoResult := fun _ => .nonBoolean

/-- C4 counterexample: with `IncludeNonFailures = false` and a single `Passed`
misconfiguration of matching severity, the first run yields the summary
`{Successes := 1}` and an empty misconfiguration list, while the second run —
on the first run's output — yields no summary at all (`none`): the
misconfiguration summary is not idempotent. -/
def c4mis : DetectedMisconfiguration :=
  { ID := "ID-1", AVDID := "AVD-1", Severity := "LOW", Status := .passed }

def c4res : Result :=
  { Vulnerabilities := []
    Misconfigurations := [c4mis]
    MisconfSummary := none
    Secrets := []
    Licenses := [] }

def c4opt : FilterOption :=
  { Severities := [.low]
    IgnoreUnfixed := false
    IncludeNonFailures := false
    IgnoreFile := none
    PolicyFile := none
    IgnoreLicenses := []
    VEXPath := "" }

/-- Sequencing a fallible function over a list, failing on the first error. -/
def mapExcept (f : String → Except String String) : List String → Except String (List String)
  | [] => .ok []
  | x :: xs =>
    match f x with
    | .error e => .error e
    | .ok y =>
      match mapExcept f xs with
      | .error e => .error e
      | .ok ys => .ok (y :: ys)

/-- C7, written after the spec's words: the image key is computed from the
image ID and the config-analyzer version set alone, with `nil` handler
versions and a zero options struct, while each layer key uses the
file-analyzer versions, the handler versions and the full options. -/
def calcCacheKeysSpec
    (calcKey : String → List (String × Nat) → Option (List (String × Nat)) → ArtifactOption →
      Except String String)
    (a : ImageArtifact) (imageID : String) (diffIDs : List String) :
    Except String (String × List String) :=
  match calcKey imageID a.configAnalyzerVersions none ArtifactOption.zero with
  | .error e => .error e
  | .ok imageKey =>
    match mapExcept (fun d =>
        calcKey d a.analyzerVersions (some a.handlerVersions) a.artifactOption) diffIDs with
    | .error e => .error e
    | .ok layerKeys => .ok (imageKey, layerKeys)

/-- A concrete, everywhere-succeeding stand-in for `cache.CalcKey` that
depends on every argument. -/
def c7calcKey (s : String) (vers : List (String × Nat)) (hooks : Option (List (String × Nat)))
    (opt : ArtifactOption) : Except String String :=
  .ok (s ++ "|" ++ toString vers.length ++ "|" ++ toString (hooks.getD []).length ++ "|" ++
    toString opt.FilePatterns.length)

/-- A concrete artifact. -/
def c7a : ImageArtifact := ⟨[("config", 1)], [("file", 1)], [("hook", 1)], ArtifactOption.zero⟩

/-- A second concrete artifact: same config-analyzer versions as `c7a`,
different file-analyzer versions, handler versions and options. -/
def c7b : ImageArtifact :=
  ⟨[("config", 1)], [("file", 2), ("x", 3)], [],
    { ArtifactOption.zero with FilePatterns := ["p"] }⟩

/-- The C9 claim read literally: a `HEALTHCHECK` line whose start-period flag
is spelled `--start-period`. -/
def healthcheckLineClaim (durStr : Int → String) (hc : Healthcheck) : String :=
  let interval := if hc.Interval ≠ 0 then "--interval=" ++ durStr hc.Interval ++ " " else ""
  let timeout := if hc.Timeout ≠ 0 then "--timeout=" ++ durStr hc.Timeout ++ " " else ""
  let startPeriod :=
    if hc.StartPeriod ≠ 0 then "--start-period=" ++ durStr hc.StartPeriod ++ " " else ""
  let retries := if hc.Retries ≠ 0 then "--retries=" ++ toString hc.Retries ++ " " else ""
  let command := goReplaceAll (goJoin " " hc.Test) "CMD-SHELL" "CMD"
  "HEALTHCHECK " ++ interval ++ timeout ++ startPeriod ++ retries ++ command

/-- The C9 claim read literally: an entry beginning `/bin/sh -c` becomes
`RUN ...` by replacing that *prefix* only. -/
def historyLineClaim (durStr : Int → String) (cfg : ConfigFile) (h : History) : String :=
  if goHasLead h.CreatedBy "/bin/sh -c #(nop)" then
    trimLead h.CreatedBy "/bin/sh -c #(nop)"
  else if goHasLead h.CreatedBy "/bin/sh -c" then
    "RUN" ++ trimLead h.CreatedBy "/bin/sh -c"
  else if goHasLead h.CreatedBy "USER" then
    h.CreatedBy
  else if goHasLead h.CreatedBy "HEALTHCHECK" then
    healthcheckLineClaim durStr cfg.Healthcheck
  else ""

/-- Concatenation of a list of lines. -/
def joinLines : List String → String
  | [] => ""
  | s :: rest => s ++ joinLines rest

/-- The C9 claim applied to a whole history: trimmed lines joined after
dropping the entries up to the base-image index. -/
def buildDockerfileClaim (durStr : Int → String) (baseLayerIndex : Int) (cfg : ConfigFile) :
    String :=
  joinLines ((cfg.History.drop (baseLayerIndex + 1).toNat).map
    (fun h => goTrimSpace (historyLineClaim durStr cfg h) ++ "\n"))

/-- C9 amended: the start-period flag is spelled `--startPeriod`. -/
def healthcheckLineAmended (durStr : Int → String) (hc : Healthcheck) : String :=
  let interval := if hc.Interval ≠ 0 then "--interval=" ++ durStr hc.Interval ++ " " else ""
  let timeout := if hc.Timeout ≠ 0 then "--timeout=" ++ durStr hc.Timeout ++ " " else ""
  let startPeriod :=
    if hc.StartPeriod ≠ 0 then "--startPeriod=" ++ durStr hc.StartPeriod ++ " " else ""
  let retries := if hc.Retries ≠ 0 then "--retries=" ++ toString hc.Retries ++ " " else ""
  let command := goReplaceAll (goJoin " " hc.Test) "CMD-SHELL" "CMD"
  "HEALTHCHECK " ++ interval ++ timeout ++ startPeriod ++ retries ++ command

/-- C9 amended: an entry beginning `/bin/sh -c` has *every* occurrence of
`/bin/sh -c` replaced by `RUN`, not only the prefix. -/
def historyLineAmended (durStr : Int → String) (cfg : ConfigFile) (h : History) : String :=
  if goHasLead h.CreatedBy "/bin/sh -c #(nop)" then
    trimLead h.CreatedBy "/bin/sh -c #(nop)"
  else if goHasLead h.CreatedBy "/bin/sh -c" then
    goReplaceAll h.CreatedBy "/bin/sh -c" "RUN"
  else if goHasLead h.CreatedBy "USER" then
    h.CreatedBy
  else if goHasLead h.CreatedBy "HEALTHCHECK" then
    healthcheckLineAmended durStr cfg.Healthcheck
  else ""

/-- C9 amended, applied to a whole history. -/
def buildDockerfileAmended (durStr : Int → String) (baseLayerIndex : Int) (cfg : ConfigFile) :
    String :=
  joinLines ((cfg.History.drop (baseLayerIndex + 1).toNat).map
    (fun h => goTrimSpace (historyLineAmended durStr cfg h) ++ "\n"))

/-- A concrete rendering of `time.Duration` values (nanosecond count). -/
def c9durStr (n : Int) : String := toString n ++ "ns"

/-- A concrete config: a `RUN` entry whose command itself contains
`/bin/sh -c`, and a `HEALTHCHECK` with non-zero start period and retries. -/
def c9cfg : ConfigFile :=
  { History := [⟨"/bin/sh -c echo /bin/sh -c hi", false⟩, ⟨"HEALTHCHECK", false⟩]
    Healthcheck := ⟨["CMD-SHELL", "curl -f localhost"], 0, 0, 5000000000, 3⟩ }

/-! ## Lemmas about the Mariner driver -/

theorem marinerAdvLoop_eq (lib : RpmLib) (pkg : Package) (hrender : ∀ s, lib.render s = s) :
    ∀ (advs : List Advisory) (vulns : List DetectedVulnerability),
      marinerAdvLoop lib pkg advs vulns =
        vulns ++ advs.filterMap (marinerAdvVulnClaim lib.lt pkg)
  | [], vulns => by simp [marinerAdvLoop]
  | adv :: advs, vulns => by
    by_cases h1 : adv.FixedVersion = ""
    · simp [marinerAdvLoop, marinerAdvVulnClaim, h1,
        marinerAdvLoop_eq lib pkg hrender advs]
    · by_cases h2 : lib.lt (FormatSrcVersion pkg) adv.FixedVersion
      · simp [marinerAdvLoop, marinerAdvVulnClaim, h1, h2, hrender,
          marinerAdvLoop_eq lib pkg hrender advs]
      · simp [marinerAdvLoop, marinerAdvVulnClaim, h1, h2,
          marinerAdvLoop_eq lib pkg hrender advs]

theorem marinerPkgLoop_eq (lib : RpmLib) (vsGet : String → String → Except String (List Advisory))
    (osVer : String) (advFor : Package → List Advisory) (hrender : ∀ s, lib.render s = s) :
    ∀ (pkgs : List Package) (vulns : List DetectedVulnerability),
      (∀ pkg ∈ pkgs, vsGet osVer pkg.SrcName = .ok (advFor pkg)) →
      marinerPkgLoop lib vsGet osVer pkgs vulns =
        .ok (vulns ++ pkgs.flatMap fun pkg => (advFor pkg).filterMap (marinerAdvVulnClaim lib.lt pkg))
  | [], vulns, _ => by simp [marinerPkgLoop]
  | pkg :: pkgs, vulns, hget => by
    have h0 : vsGet osVer pkg.SrcName = .ok (advFor pkg) := hget pkg (by simp)
    have ih := marinerPkgLoop_eq lib vsGet osVer advFor hrender pkgs
      (marinerAdvLoop lib pkg (advFor pkg) vulns)
      (fun p hp => hget p (by simp [hp]))
    rw [marinerAdvLoop_eq lib pkg hrender] at ih
    simp only [marinerPkgLoop, h0]
    rw [marinerAdvLoop_eq lib pkg hrender, ih]
    simp [List.append_assoc]

theorem mem_marinerAdvLoop {lib : RpmLib} {pkg : Package} :
    ∀ {advs : List Advisory} {vulns : List DetectedVulnerability} {v : DetectedVulnerability},
      v ∈ marinerAdvLoop lib pkg advs vulns →
      v ∈ vulns ∨ ∃ adv ∈ advs,
        (adv.FixedVersion = "" ∧ v = marinerBaseVuln pkg adv) ∨
        (adv.FixedVersion ≠ "" ∧ lib.lt (FormatSrcVersion pkg) adv.FixedVersion = true ∧
          v = { marinerBaseVuln pkg adv with FixedVersion := lib.render adv.FixedVersion })
  | [], _, _, hv => Or.inl hv
  | adv :: advs, vulns, v, hv => by
    by_cases h1 : adv.FixedVersion = ""
    · rw [marinerAdvLoop, if_pos h1] at hv
      rcases mem_marinerAdvLoop hv with hv' | ⟨adv', ha', hc⟩
      · rcases List.mem_append.1 hv' with h | h
        · exact Or.inl h
        · exact Or.inr ⟨adv, by simp, Or.inl ⟨h1, (List.mem_singleton.1 h)⟩⟩
      · exact Or.inr ⟨adv', by simp [ha'], hc⟩
    · by_cases h2 : lib.lt (FormatSrcVersion pkg) adv.FixedVersion
      · rw [marinerAdvLoop, if_neg h1, if_pos h2] at hv
        rcases mem_marinerAdvLoop hv with hv' | ⟨adv', ha', hc⟩
        · rcases List.mem_append.1 hv' with h | h
          · exact Or.inl h
          · exact Or.inr ⟨adv, by simp, Or.inr ⟨h1, h2, (List.mem_singleton.1 h)⟩⟩
        · exact Or.inr ⟨adv', by simp [ha'], hc⟩
      · rw [marinerAdvLoop, if_neg h1, if_neg h2] at hv
        rcases mem_marinerAdvLoop hv with hv' | ⟨adv', ha', hc⟩
        · exact Or.inl hv'
        · exact Or.inr ⟨adv', by simp [ha'], hc⟩

theorem mem_marinerPkgLoop {lib : RpmLib} {vsGet : String → String → Except String (List Advisory)}
    {osVer : String} :
    ∀ {pkgs : List Package} {vulns res : List DetectedVulnerability},
      marinerPkgLoop lib vsGet osVer pkgs vulns = .ok res →
      ∀ v ∈ res, v ∈ vulns ∨ ∃ pkg ∈ pkgs, ∃ advs, vsGet osVer pkg.SrcName = .ok advs ∧
        ∃ adv ∈ advs,
          (adv.FixedVersion = "" ∧ v = marinerBaseVuln pkg adv) ∨
          (adv.FixedVersion ≠ "" ∧ lib.lt (FormatSrcVersion pkg) adv.FixedVersion = true ∧
            v = { marinerBaseVuln pkg adv with FixedVersion := lib.render adv.FixedVersion })
  | [], vulns, res, hok, v, hv => by
    rw [marinerPkgLoop] at hok
    cases hok
    exact Or.inl hv
  | pkg :: pkgs, vulns, res, hok, v, hv => by
    rw [marinerPkgLoop] at hok
    rcases hg : vsGet osVer pkg.SrcName with e | advs
    · rw [hg] at hok; cases hok
    · rw [hg] at hok
      rcases mem_marinerPkgLoop hok v hv with hv' | ⟨pkg', hp', advs', hga', adv', ha', hc⟩
      · rcases mem_marinerAdvLoop hv' with h | ⟨adv', ha', hc⟩
        · exact Or.inl h
        · exact Or.inr ⟨pkg, by simp, advs, hg, adv', ha', hc⟩
      · exact Or.inr ⟨pkg', by simp [hp'], advs', hga', adv', ha', hc⟩

theorem exists_last_dot_split :
    ∀ {l : List Char}, '.' ∈ l →
      ∃ t u, l = t ++ '.' :: u ∧ '.' ∉ t ∧ l.dropWhile (fun c => c ≠ '.') = '.' :: u
  | [], h => absurd h (List.not_mem_nil _)
  | c :: cs, h => by
    by_cases hc : c = '.'
    · subst hc
      exact ⟨[], cs, rfl, by simp, by simp [List.dropWhile]⟩
    · have h' : '.' ∈ cs := by
        rcases List.mem_cons.1 h with h | h
        · exact absurd h.symm hc
        · exact h
      obtain ⟨t, u, he, hnt, hd⟩ := exists_last_dot_split h'
      refine ⟨c :: t, u, by rw [List.cons_append, he], ?_, ?_⟩
      · simp only [List.mem_cons, not_or]
        exact ⟨fun hh => hc hh.symm, hnt⟩
      · rw [List.dropWhile_cons, if_pos (by simp [hc])]
        exact hd

theorem marinerNormalize_split (osVer : String) (h : 1 < osVer.toList.count '.') :
    ∃ rest, osVer.toList = (marinerNormalizeOsVer osVer).toList ++ '.' :: rest ∧ '.' ∉ rest := by
  have hm : '.' ∈ osVer.toList.reverse := by
    rw [List.mem_reverse]
    by_contra hn
    have := List.count_eq_zero_of_not_mem hn
    omega
  obtain ⟨t, u, he, hnt, hd⟩ := exists_last_dot_split hm
  have hnorm : (marinerNormalizeOsVer osVer).toList = u.reverse := by
    rw [marinerNormalizeOsVer, if_pos h, beforeLastDot, hd]
    simp [String.toList]
  refine ⟨t.reverse, ?_, by simpa using hnt⟩
  rw [hnorm]
  have : osVer.toList = osVer.toList.reverse.reverse := by simp
  rw [this, he]
  simp

/-- C1 (confirmed): for every OS version and package list, `mariner.Scanner.Detect`
looks advisories up under the normalized OS version (truncated at the last `'.'`
exactly when more than one `'.'` occurs, unchanged otherwise) by the package's
source name, and returns, per advisory, an unpatched finding with empty
`FixedVersion` when the advisory's fixed version is empty, and a finding
carrying the advisory's fixed version exactly when the package's formatted
source version is strictly below it under the RPM comparator (no finding
otherwise).  The external RPM library is any `lib` whose rendering of a
version string is the identity. -/
theorem mariner_detect_characterization (lib : RpmLib)
    (vsGet : String → String → Except String (List Advisory)) (advFor : Package → List Advisory)
    (osVer : String) (pkgs : List Package)
    (hrender : ∀ s, lib.render s = s)
    (hget : ∀ pkg ∈ pkgs, vsGet (marinerNormalizeOsVer osVer) pkg.SrcName = .ok (advFor pkg)) :
    marinerDetect lib vsGet osVer pkgs =
      .ok (pkgs.flatMap fun pkg => (advFor pkg).filterMap (marinerAdvVulnClaim lib.lt pkg)) ∧
    (1 < osVer.toList.count '.' →
      ∃ rest, osVer.toList = (marinerNormalizeOsVer osVer).toList ++ '.' :: rest ∧ '.' ∉ rest) ∧
    (¬ 1 < osVer.toList.count '.' → marinerNormalizeOsVer osVer = osVer) := by
  refine ⟨?_, fun h => marinerNormalize_split osVer h, fun h => by
    rw [marinerNormalizeOsVer, if_neg h]⟩
  rw [marinerDetect, marinerPkgLoop_eq lib vsGet _ advFor hrender pkgs [] hget]
  simp

theorem mariner_detect_characterization_witness :
    marinerDetect rpmDemo c1vsGet "2.0.20240101" [c1pkg] =
      .ok ([c1pkg].flatMap fun pkg =>
        (c1advisories).filterMap (marinerAdvVulnClaim rpmDemo.lt pkg)) := by
  have h := mariner_detect_characterization rpmDemo c1vsGet (fun _ => c1advisories)
    "2.0.20240101" [c1pkg] (fun s => rfl)
    (by
      intro pkg hp
      rw [List.mem_singleton] at hp
      subst hp
      rfl)
  exact h.1

/-- C2 counterexample: the Mariner driver returns a finding with non-empty
`FixedVersion = "1.5"` whose `InstalledVersion = "2.0"` (the binary version) is
NOT strictly below it under the RPM comparator — the driver compares the
*source* version (`"1.0"`), not the recorded installed version. -/
theorem mariner_installed_lt_fixed_counterexample :
    marinerDetect rpmDemo c2vsGet "2.0" [c2pkg] = .ok [c2vuln] ∧
    c2vuln.FixedVersion ≠ "" ∧
    rpmDemo.lt c2vuln.InstalledVersion c2vuln.FixedVersion = false ∧
    rpmDemo.lt (FormatSrcVersion c2pkg) c2vuln.FixedVersion = true := by
  refine ⟨rfl, by decide, by decide, by decide⟩

/-- C2 (corrected): for every finding the Mariner driver returns with a
non-empty `FixedVersion`, some originating package and advisory exist such
that the package's formatted *source* version is strictly below the advisory's
fixed version under the comparator, and the record's `FixedVersion` is the
rendering of that advisory's fixed version — while the record's
`InstalledVersion` is the formatted *binary* version, which need not satisfy
the comparison. -/
theorem mariner_fixed_implies_src_lt (lib : RpmLib)
    (vsGet : String → String → Except String (List Advisory)) (osVer : String)
    (pkgs : List Package) (res : List DetectedVulnerability)
    (hdet : marinerDetect lib vsGet osVer pkgs = .ok res) :
    ∀ v ∈ res, v.FixedVersion ≠ "" →
      ∃ pkg ∈ pkgs, ∃ advs, vsGet (marinerNormalizeOsVer osVer) pkg.SrcName = .ok advs ∧
        ∃ adv ∈ advs, lib.lt (FormatSrcVersion pkg) adv.FixedVersion = true ∧
          v.FixedVersion = lib.render adv.FixedVersion ∧
          v.InstalledVersion = FormatVersion pkg := by
  intro v hv hfix
  rw [marinerDetect] at hdet
  rcases mem_marinerPkgLoop hdet v hv with h | ⟨pkg, hp, advs, hga, adv, ha, hc⟩
  · exact absurd h (List.not_mem_nil v)
  · rcases hc with ⟨_, hbase⟩ | ⟨hne, hlt, heq⟩
    · exact absurd (by rw [hbase]; rfl) hfix
    · exact ⟨pkg, hp, advs, hga, adv, ha, hlt, by rw [heq], by rw [heq]; rfl⟩

theorem mariner_fixed_implies_src_lt_witness :
    ∃ pkg ∈ [c2pkg], ∃ advs, c2vsGet (marinerNormalizeOsVer "2.0") pkg.SrcName = .ok advs ∧
      ∃ adv ∈ advs, rpmDemo.lt (FormatSrcVersion pkg) adv.FixedVersion = true ∧
        c2vuln.FixedVersion = rpmDemo.render adv.FixedVersion ∧
        c2vuln.InstalledVersion = FormatVersion pkg := by
  exact mariner_fixed_implies_src_lt rpmDemo c2vsGet "2.0" [c2pkg] [c2vuln] rfl c2vuln
    (by simp) (by decide)

/-! ## Lemmas about `filterVulnerabilities` -/

theorem fvSevLoop_eq (iu : Bool) (ign : List String) (v : DetectedVulnerability) :
    ∀ (sevs : List Severity) (uniq : List (String × DetectedVulnerability)),
      fvSevLoop iu ign v uniq sevs =
        if fvSurvives sevs iu ign v then fvInsert v uniq else uniq
  | [], uniq => by simp [fvSevLoop, fvSurvives]
  | s :: rest, uniq => by
    have ih := fvSevLoop_eq iu ign v rest uniq
    by_cases h1 : s.goStr = v.Severity
    · by_cases h2 : (iu && decide (v.FixedVersion = "")) = true
      · have hs : ∀ l, fvSurvives l iu ign v = (l.any (fun s => s.goStr = v.Severity) && false) := by
          intro l
          simp [fvSurvives, h2]
        rw [fvSevLoop, if_neg (by simp [h1]), if_pos h2, ih]
        simp [hs]
      · by_cases h3 : ign.contains v.VulnerabilityID = true
        · have hs : ∀ l, fvSurvives l iu ign v = false := by
            intro l
            unfold fvSurvives
            rw [h3]
            simp
          rw [fvSevLoop, if_neg (by simp [h1]), if_neg h2, if_pos h3, ih]
          simp [hs]
        · have h2' : (iu && decide (v.FixedVersion = "")) = false := by
            revert h2
            cases iu && decide (v.FixedVersion = "") <;> simp
          have h3' : ign.contains v.VulnerabilityID = false := by
            revert h3
            cases ign.contains v.VulnerabilityID <;> simp
          have hsurv : fvSurvives (s :: rest) iu ign v = true := by
            unfold fvSurvives
            rw [h2', h3', List.any_cons]
            simp [h1]
          rw [fvSevLoop, if_neg (by simp [h1]), if_neg h2, if_neg h3, if_pos hsurv]
          rcases hg : mapGet (vulnKey v) uniq with _ | old
          · simp [fvInsert, hg]
          · by_cases ho : shouldOverwrite old v = true
            · simp [fvInsert, hg, ho]
            · have ho' : shouldOverwrite old v = false := by
                revert ho
                cases shouldOverwrite old v <;> simp
              show (if (!shouldOverwrite old v) = true then fvSevLoop iu ign v uniq rest
                    else mapPut (vulnKey v) v uniq) = fvInsert v uniq
              rw [ho']
              rw [if_pos (by simp), ih]
              have hins : fvInsert v uniq = uniq := by
                simp [fvInsert, hg, ho']
              rw [hins]
              split_ifs <;> rfl
    · rw [fvSevLoop, if_pos (by simp [h1]), ih]
      have : fvSurvives (s :: rest) iu ign v = fvSurvives rest iu ign v := by
        unfold fvSurvives
        rw [List.any_cons]
        simp [h1]
      rw [this]

theorem mapGet_mapPut_self {α : Type} (k : String) (v : α) :
    ∀ l, mapGet k (mapPut k v l) = some v
  | [] => by simp [mapGet, mapPut]
  | (k', v') :: rest => by
    by_cases h : k' = k
    · simp [mapGet, mapPut, h]
    · simp [mapGet, mapPut, h, mapGet_mapPut_self k v rest]

theorem mapGet_mapPut_other {α : Type} {k k' : String} (h : k' ≠ k) (v : α) :
    ∀ l, mapGet k (mapPut k' v l) = mapGet k l
  | [] => by simp [mapGet, mapPut, h]
  | (k'', v'') :: rest => by
    by_cases h2 : k'' = k'
    · subst h2
      simp [mapGet, mapPut, h]
    · by_cases h3 : k'' = k
      · simp [mapGet, mapPut, h2, h3, Ne.symm h]
      · simp [mapGet, mapPut, h2, h3, mapGet_mapPut_other h v rest]

theorem mapGet_fvInsert_self {v : DetectedVulnerability} {k : String} (h : vulnKey v = k)
    (uniq : List (String × DetectedVulnerability)) :
    mapGet k (fvInsert v uniq) =
      match mapGet k uniq with
      | none => some v
      | some old => if shouldOverwrite old v then some v else some old := by
  subst h
  rcases hg : mapGet (vulnKey v) uniq with _ | old
  · simp [fvInsert, hg, mapGet_mapPut_self]
  · by_cases ho : shouldOverwrite old v = true
    · simp [fvInsert, hg, ho, mapGet_mapPut_self]
    · simp [fvInsert, hg, ho]

theorem mapGet_fvInsert_other {v : DetectedVulnerability} {k : String} (h : vulnKey v ≠ k)
    (uniq : List (String × DetectedVulnerability)) :
    mapGet k (fvInsert v uniq) = mapGet k uniq := by
  rcases hg : mapGet (vulnKey v) uniq with _ | old
  · simp [fvInsert, hg, mapGet_mapPut_other h]
  · by_cases ho : shouldOverwrite old v = true
    · simp [fvInsert, hg, ho, mapGet_mapPut_other h]
    · simp [fvInsert, hg, ho]

theorem foldBest_cons (o : Option DetectedVulnerability) (v : DetectedVulnerability)
    (l : List DetectedVulnerability) :
    foldBest o (v :: l) =
      foldBest
        (match o with
         | none => some v
         | some old => if shouldOverwrite old v then some v else some old) l := by
  rcases o with _ | old
  · rfl
  · show foldBest (some old) (v :: l) =
      foldBest (if shouldOverwrite old v then some v else some old) l
    by_cases h : shouldOverwrite old v = true
    · rw [foldBest, if_pos h, if_pos h]
    · rw [foldBest, if_neg h, if_neg h]

theorem fvLoop_cons (sevs : List Severity) (iu : Bool) (ign : List String)
    (v : DetectedVulnerability) (vulns : List DetectedVulnerability)
    (uniq : List (String × DetectedVulnerability)) :
    fvLoop sevs iu ign (v :: vulns) uniq =
      fvLoop sevs iu ign vulns (fvSevLoop iu ign (fvDefault v) uniq sevs) := rfl

theorem mapGet_fvLoop (sevs : List Severity) (iu : Bool) (ign : List String) (k : String) :
    ∀ (vulns : List DetectedVulnerability) (uniq : List (String × DetectedVulnerability)),
      mapGet k (fvLoop sevs iu ign vulns uniq) =
        foldBest (mapGet k uniq)
          (((vulns.map fvDefault).filter (fvSurvives sevs iu ign)).filter
            (fun v => vulnKey v = k))
  | [], uniq => by simp [fvLoop, foldBest]
  | v :: vulns, uniq => by
    have ih := mapGet_fvLoop sevs iu ign k vulns
    rw [fvLoop_cons, fvSevLoop_eq]
    by_cases hs : fvSurvives sevs iu ign (fvDefault v) = true
    · rw [if_pos hs]
      by_cases hk : vulnKey (fvDefault v) = k
      · rw [ih, List.map_cons, List.filter_cons_of_pos (by simp [hs]),
          List.filter_cons_of_pos (by simp [hk]), foldBest_cons,
          mapGet_fvInsert_self hk]
      · rw [ih, List.map_cons, List.filter_cons_of_pos (by simp [hs]),
          List.filter_cons_of_neg (by simp [hk]), mapGet_fvInsert_other hk]
    · rw [if_neg hs, ih, List.map_cons, List.filter_cons_of_neg (by simp [hs])]

theorem goStrLtChars_iff :
    ∀ as bs : List Char, goStrLtChars as bs = true ↔ List.lt as bs
  | [], [] => by
    rw [goStrLtChars]
    constructor
    · intro h
      cases h
    · intro h
      cases h
  | [], b :: bs => by
    rw [goStrLtChars]
    simp only [true_iff]
    exact List.lt.nil b bs
  | a :: as, [] => by
    rw [goStrLtChars]
    constructor
    · intro h
      cases h
    · intro h
      cases h
  | a :: as, b :: bs => by
    rw [goStrLtChars]
    by_cases hab : a < b
    · rw [if_pos hab]
      simp only [true_iff]
      exact List.lt.head as bs hab
    · rw [if_neg hab]
      by_cases hba : b < a
      · rw [if_pos hba]
        constructor
        · intro h
          cases h
        · intro h
          cases h with
          | head _ _ h' => exact absurd h' hab
          | tail h1 h2 h3 => exact absurd hba h2
      · rw [if_neg hba]
        rw [goStrLtChars_iff as bs]
        constructor
        · intro h
          exact List.lt.tail hab hba h
        · intro h
          cases h with
          | head _ _ h' => exact absurd h' hab
          | tail h1 h2 h3 => exact h3

theorem goStrLt_iff (a b : String) : goStrLt a b = true ↔ a < b := by
  rw [String.lt_iff_toList_lt]
  have h1 := goStrLtChars_iff a.toList b.toList
  have h2 := List.lt_iff_lex_lt a.toList b.toList
  constructor
  · intro h
    show List.Lex (· < ·) a.toList b.toList
    exact h2.1 (h1.1 h)
  · intro h
    exact h1.2 (h2.2 h)

theorem shouldOverwrite_iff (old v : DetectedVulnerability) :
    shouldOverwrite old v = true ↔ old.FixedVersion < v.FixedVersion :=
  goStrLt_iff old.FixedVersion v.FixedVersion

theorem goStrLe_iff (a b : String) : goStrLe a b = true ↔ a ≤ b := by
  rw [goStrLe, Bool.not_eq_true']
  constructor
  · intro h
    refine le_of_not_lt fun hlt => ?_
    rw [(goStrLt_iff b a).2 hlt] at h
    cases h
  · intro h
    cases hg : goStrLt b a
    · rfl
    · exact absurd ((goStrLt_iff b a).1 hg) (not_lt.2 h)

instance : IsTotal DetectedVulnerability bySeverity := by
  constructor
  intro a b
  unfold bySeverity
  rcases Nat.lt_trichotomy (sevValue a.Severity) (sevValue b.Severity) with h | h | h
  · exact Or.inr (Or.inl h)
  · rcases le_total a.VulnerabilityID b.VulnerabilityID with h' | h'
    · exact Or.inl (Or.inr ⟨h, (goStrLe_iff _ _).2 h'⟩)
    · exact Or.inr (Or.inr ⟨h.symm, (goStrLe_iff _ _).2 h'⟩)
  · exact Or.inl (Or.inl h)

instance : IsTrans DetectedVulnerability bySeverity := by
  constructor
  intro a b c hab hbc
  unfold bySeverity at *
  rcases hab with hab | ⟨hab1, hab2⟩ <;> rcases hbc with hbc | ⟨hbc1, hbc2⟩
  · exact Or.inl (by omega)
  · exact Or.inl (by omega)
  · exact Or.inl (by omega)
  · refine Or.inr ⟨by omega, (goStrLe_iff _ _).2 ?_⟩
    exact le_trans ((goStrLe_iff _ _).1 hab2) ((goStrLe_iff _ _).1 hbc2)


theorem foldBest_split :
    ∀ (l : List DetectedVulnerability) (cur : DetectedVulnerability),
      ∃ w, foldBest (some cur) l = some w ∧
        ((w = cur ∧ ∀ b ∈ l, b.FixedVersion ≤ cur.FixedVersion) ∨
         ∃ l1 l2, l = l1 ++ w :: l2 ∧ cur.FixedVersion < w.FixedVersion ∧
           (∀ b ∈ l1, b.FixedVersion < w.FixedVersion) ∧
           (∀ b ∈ l2, b.FixedVersion ≤ w.FixedVersion))
  | [], cur => ⟨cur, rfl, Or.inl ⟨rfl, by simp⟩⟩
  | v :: rest, cur => by
    by_cases h : shouldOverwrite cur v = true
    · have hcv : cur.FixedVersion < v.FixedVersion := (shouldOverwrite_iff cur v).1 h
      obtain ⟨w, hw, hc⟩ := foldBest_split rest v
      refine ⟨w, by rw [foldBest, if_pos h]; exact hw, Or.inr ?_⟩
      rcases hc with ⟨rfl, hall⟩ | ⟨l1, l2, he, hlt, h1, h2⟩
      · exact ⟨[], rest, rfl, hcv, by simp, hall⟩
      · refine ⟨v :: l1, l2, by rw [he]; rfl, hcv.trans hlt, ?_, h2⟩
        intro b hb
        rcases List.mem_cons.1 hb with rfl | hb
        · exact hlt
        · exact h1 b hb
    · obtain ⟨w, hw, hc⟩ := foldBest_split rest cur
      have hle : v.FixedVersion ≤ cur.FixedVersion :=
        le_of_not_lt fun hl => h ((shouldOverwrite_iff cur v).2 hl)
      refine ⟨w, by rw [foldBest, if_neg h]; exact hw, ?_⟩
      rcases hc with ⟨rfl, hall⟩ | ⟨l1, l2, he, hlt, h1, h2⟩
      · refine Or.inl ⟨rfl, ?_⟩
        intro b hb
        rcases List.mem_cons.1 hb with rfl | hb
        · exact hle
        · exact hall b hb
      · refine Or.inr ⟨v :: l1, l2, by rw [he]; rfl, hlt, ?_, h2⟩
        intro b hb
        rcases List.mem_cons.1 hb with rfl | hb
        · exact lt_of_le_of_lt hle hlt
        · exact h1 b hb

theorem foldBest_none_split (l : List DetectedVulnerability) :
    (l = [] ∧ foldBest none l = none) ∨
    ∃ w l1 l2, foldBest none l = some w ∧ l = l1 ++ w :: l2 ∧
      (∀ b ∈ l1, b.FixedVersion < w.FixedVersion) ∧
      (∀ b ∈ l2, b.FixedVersion ≤ w.FixedVersion) := by
  cases l with
  | nil => exact Or.inl ⟨rfl, rfl⟩
  | cons v rest =>
    obtain ⟨w, hw, hc⟩ := foldBest_split rest v
    refine Or.inr ⟨w, ?_⟩
    have hstep : foldBest none (v :: rest) = some w := by
      rw [foldBest]
      exact hw
    rcases hc with ⟨rfl, hall⟩ | ⟨l1, l2, he, hlt, h1, h2⟩
    · exact ⟨[], rest, hstep, rfl, by simp, hall⟩
    · refine ⟨v :: l1, l2, hstep, by rw [he]; rfl, ?_, h2⟩
      intro b hb
      rcases List.mem_cons.1 hb with rfl | hb
      · exact hlt
      · exact h1 b hb

theorem mem_mapPut {α : Type} (p : String × α) (k : String) (v : α) :
    ∀ l, p ∈ mapPut k v l → p = (k, v) ∨ p ∈ l
  | [], hp => Or.inl (List.mem_singleton.1 hp)
  | (k', v') :: rest, hp => by
    rw [mapPut] at hp
    by_cases h : k' = k
    · rw [if_pos h] at hp
      rcases List.mem_cons.1 hp with h' | h'
      · exact Or.inl h'
      · exact Or.inr (List.mem_cons_of_mem _ h')
    · rw [if_neg h] at hp
      rcases List.mem_cons.1 hp with h' | h'
      · exact Or.inr (by rw [h']; exact List.mem_cons_self _ _)
      · rcases mem_mapPut p k v rest h' with h'' | h''
        · exact Or.inl h''
        · exact Or.inr (List.mem_cons_of_mem _ h'')

theorem wf_mapPut {m : List (String × DetectedVulnerability)} (hm : wfVulnMap m)
    (v : DetectedVulnerability) : wfVulnMap (mapPut (vulnKey v) v m) := by
  intro p hp
  rcases mem_mapPut p (vulnKey v) v m hp with h | h
  · rw [h]
  · exact hm p h

theorem wf_fvInsert {m : List (String × DetectedVulnerability)} (hm : wfVulnMap m)
    (v : DetectedVulnerability) : wfVulnMap (fvInsert v m) := by
  rw [fvInsert]
  rcases mapGet (vulnKey v) m with _ | old
  · exact wf_mapPut hm v
  · show wfVulnMap (if (!shouldOverwrite old v) = true then m else mapPut (vulnKey v) v m)
    by_cases ho : (!shouldOverwrite old v) = true
    · rw [if_pos ho]
      exact hm
    · rw [if_neg ho]
      exact wf_mapPut hm v

theorem wf_fvLoop (sevs : List Severity) (iu : Bool) (ign : List String) :
    ∀ (vulns : List DetectedVulnerability) (m : List (String × DetectedVulnerability)),
      wfVulnMap m → wfVulnMap (fvLoop sevs iu ign vulns m)
  | [], m, hm => hm
  | v :: vulns, m, hm => by
    rw [fvLoop_cons, fvSevLoop_eq]
    by_cases hs : fvSurvives sevs iu ign (fvDefault v) = true
    · rw [if_pos hs]
      exact wf_fvLoop sevs iu ign vulns _ (wf_fvInsert hm (fvDefault v))
    · rw [if_neg hs]
      exact wf_fvLoop sevs iu ign vulns m hm

theorem find?_values :
    ∀ (m : List (String × DetectedVulnerability)), wfVulnMap m → ∀ (k : String),
      (m.map Prod.snd).find? (fun v => vulnKey v = k) = mapGet k m
  | [], _, k => rfl
  | (k', v') :: rest, hm, k => by
    have hk' : vulnKey v' = k' := hm (k', v') (List.mem_cons_self _ _)
    by_cases h : k' = k
    · subst h
      simp [mapGet, List.find?, hk']
    · have : (decide (vulnKey v' = k)) = false := by
        simp [hk', h]
      simp only [List.map_cons, List.find?, this, mapGet, if_neg h]
      exact find?_values rest (fun p hp => hm p (List.mem_cons_of_mem _ hp)) k

theorem mem_keys_mapPut {α : Type} (j k : String) (v : α) :
    ∀ l, j ∈ (mapPut k v l).map Prod.fst ↔ j = k ∨ j ∈ l.map Prod.fst
  | [] => by simp [mapPut]
  | (k', v') :: rest => by
    by_cases h : k' = k
    · subst h
      simp [mapPut]
    · simp only [mapPut, if_neg h, List.map_cons, List.mem_cons,
        mem_keys_mapPut j k v rest]
      tauto

theorem nodup_keys_mapPut {α : Type} (k : String) (v : α) :
    ∀ l : List (String × α), (l.map Prod.fst).Nodup → ((mapPut k v l).map Prod.fst).Nodup
  | [], _ => by simp [mapPut]
  | (k', v') :: rest, hn => by
    rw [List.map_cons, List.nodup_cons] at hn
    by_cases h : k' = k
    · subst h
      simpa [mapPut] using hn
    · rw [mapPut, if_neg h, List.map_cons, List.nodup_cons]
      refine ⟨?_, nodup_keys_mapPut k v rest hn.2⟩
      rw [mem_keys_mapPut]
      push_neg
      exact ⟨h, hn.1⟩

theorem nodup_keys_fvInsert (v : DetectedVulnerability)
    (m : List (String × DetectedVulnerability)) (hn : (m.map Prod.fst).Nodup) :
    ((fvInsert v m).map Prod.fst).Nodup := by
  rw [fvInsert]
  rcases mapGet (vulnKey v) m with _ | old
  · exact nodup_keys_mapPut _ v m hn
  · show (((if (!shouldOverwrite old v) = true then m
        else mapPut (vulnKey v) v m)).map Prod.fst).Nodup
    by_cases ho : (!shouldOverwrite old v) = true
    · rw [if_pos ho]
      exact hn
    · rw [if_neg ho]
      exact nodup_keys_mapPut _ v m hn

theorem nodup_keys_fvLoop (sevs : List Severity) (iu : Bool) (ign : List String) :
    ∀ (vulns : List DetectedVulnerability) (m : List (String × DetectedVulnerability)),
      (m.map Prod.fst).Nodup → ((fvLoop sevs iu ign vulns m).map Prod.fst).Nodup
  | [], _, hn => hn
  | v :: vulns, m, hn => by
    rw [fvLoop_cons, fvSevLoop_eq]
    by_cases hs : fvSurvives sevs iu ign (fvDefault v) = true
    · rw [if_pos hs]
      exact nodup_keys_fvLoop sevs iu ign vulns _ (nodup_keys_fvInsert (fvDefault v) m hn)
    · rw [if_neg hs]
      exact nodup_keys_fvLoop sevs iu ign vulns m hn

/-- C3 counterexample: the two findings differ in the 4-tuple
`(id, pkgName, installedVersion, pkgPath)`, so per-tuple deduplication would
keep both; the code collapses them because their `Sprintf`-joined string keys
collide, returning only the first. -/
theorem filterVulnerabilities_tuple_dedup_counterexample :
    (cv3a.PkgName ≠ cv3b.PkgName ∧ cv3a.InstalledVersion ≠ cv3b.InstalledVersion) ∧
    vulnKey cv3a = vulnKey cv3b ∧
    filterVulnerabilities [cv3a, cv3b] [Severity.low] false [] "" = [cv3a] :=
  ⟨by decide, by decide, by decide⟩

/-- C3 (amended/corrected): `filterVulnerabilities` deduplicates surviving
findings by the slash-joined *string* key
`id ++ "/" ++ pkgName ++ "/" ++ installedVersion ++ "/" ++ pkgPath` (which
coincides with the 4-tuple only when the fields contain no `'/'`); among the
survivors sharing a key the output retains the earliest record whose
`FixedVersion` string is lexicographically maximal: every earlier survivor
with that key is strictly smaller and every later one is less than or equal,
so a strictly greater `FixedVersion` overwrites and the earlier-seen record is
kept on ties. -/
theorem filterVulnerabilities_dedup_spec (vulns : List DetectedVulnerability)
    (sevs : List Severity) (iu : Bool) (ign : List String) (vexPath : String) (k : String) :
    ((filterVulnerabilities vulns sevs iu ign vexPath).map vulnKey).Nodup ∧
    ((filterVulnerabilities vulns sevs iu ign vexPath).find? (fun v => vulnKey v = k) = none ↔
      ((vulns.map fvDefault).filter (fvSurvives sevs iu ign)).filter
        (fun v => vulnKey v = k) = []) ∧
    (∀ w, (filterVulnerabilities vulns sevs iu ign vexPath).find? (fun v => vulnKey v = k) =
        some w →
      ∃ l1 l2,
        ((vulns.map fvDefault).filter (fvSurvives sevs iu ign)).filter
          (fun v => vulnKey v = k) = l1 ++ w :: l2 ∧
        (∀ b ∈ l1, b.FixedVersion < w.FixedVersion) ∧
        (∀ b ∈ l2, b.FixedVersion ≤ w.FixedVersion)) := by
  have hwf : wfVulnMap (fvLoop sevs iu ign vulns []) :=
    wf_fvLoop sevs iu ign vulns [] (fun p hp => absurd hp (List.not_mem_nil p))
  have hfind : ∀ j, (filterVulnerabilities vulns sevs iu ign vexPath).find?
      (fun v => vulnKey v = j) = mapGet j (fvLoop sevs iu ign vulns []) := by
    intro j
    rw [filterVulnerabilities]
    exact find?_values _ hwf j
  have hmg : ∀ j, mapGet j (fvLoop sevs iu ign vulns []) =
      foldBest none (((vulns.map fvDefault).filter (fvSurvives sevs iu ign)).filter
        (fun v => vulnKey v = j)) := by
    intro j
    rw [mapGet_fvLoop]
    rfl
  refine ⟨?_, ?_, ?_⟩
  · have hkeys : ((fvLoop sevs iu ign vulns []).map Prod.fst).Nodup :=
      nodup_keys_fvLoop sevs iu ign vulns [] (by simp)
    rw [filterVulnerabilities, List.map_map]
    have : ((fvLoop sevs iu ign vulns []).map (vulnKey ∘ Prod.snd)) =
        ((fvLoop sevs iu ign vulns []).map Prod.fst) :=
      List.map_congr_left (fun p hp => hwf p hp)
    rw [this]
    exact hkeys
  · rw [hfind, hmg]
    rcases foldBest_none_split (((vulns.map fvDefault).filter (fvSurvives sevs iu ign)).filter
        (fun v => vulnKey v = k)) with ⟨he, hf⟩ | ⟨w, l1, l2, hf, he, _, _⟩
    · rw [hf, he]
      simp
    · rw [hf, he]
      simp
  · intro w hw
    rw [hfind, hmg] at hw
    rcases foldBest_none_split (((vulns.map fvDefault).filter (fvSurvives sevs iu ign)).filter
        (fun v => vulnKey v = k)) with ⟨he, hf⟩ | ⟨w', l1, l2, hf, he, h1, h2⟩
    · rw [hf] at hw
      cases hw
    · rw [hf] at hw
      cases hw
      exact ⟨l1, l2, he, h1, h2⟩

theorem filterVulnerabilities_dedup_spec_witness :
    ∃ l1 l2,
      (([cv3a, cv3b].map fvDefault).filter (fvSurvives [Severity.low] false [])).filter
        (fun v => vulnKey v = vulnKey cv3a) = l1 ++ cv3a :: l2 ∧
      (∀ b ∈ l1, b.FixedVersion < cv3a.FixedVersion) ∧
      (∀ b ∈ l2, b.FixedVersion ≤ cv3a.FixedVersion) :=
  (filterVulnerabilities_dedup_spec [cv3a, cv3b] [Severity.low] false [] "" (vulnKey cv3a)).2.2
    cv3a (by decide)

/-! ## Lemmas about `filterMisconfigurations` -/

theorem fmSevLoop_snd (inf : Bool) (ign : List String) (m : DetectedMisconfiguration) :
    ∀ (sevs : List Severity) (summary : MisconfSummary),
      (fmSevLoop inf ign m summary sevs).2 = fmKeep sevs inf ign m
  | [], _ => by simp [fmSevLoop, fmKeep, fmMatch]
  | s :: rest, summary => by
    by_cases h1 : s.goStr = m.Severity
    · by_cases h2 : fmIgnored ign m = true
      · rw [fmSevLoop, if_pos h1, if_pos (by simpa [fmIgnored] using h2),
          fmSevLoop_snd inf ign m rest summary]
        unfold fmKeep
        rw [h2]
        simp
      · have h2' : (ign.contains m.ID || ign.contains m.AVDID) = false := by
          simpa [fmIgnored] using h2
        rw [fmSevLoop, if_pos h1, if_neg (by rw [h2']; simp)]
        by_cases h3 : (decide (m.Status ≠ MisconfStatus.failure) && !inf) = true
        · rw [if_pos h3, fmSevLoop_snd inf ign m rest (summarize m.Status summary)]
          have h3' := h3
          rw [Bool.and_eq_true] at h3'
          obtain ⟨ha, hb⟩ := h3'
          simp only [decide_eq_true_eq] at ha
          have hb' : inf = false := by
            revert hb
            cases inf <;> simp
          have hkeep : ∀ l, fmKeep l inf ign m = (fmMatch l m && false) := by
            intro l
            unfold fmKeep fmIgnored
            rw [h2', hb']
            have hd : decide (m.Status = MisconfStatus.failure) = false := by simp [ha]
            rw [hd]
            simp
          rw [hkeep rest, hkeep (s :: rest)]
          unfold fmMatch
          rw [List.any_cons]
          simp
        · rw [if_neg h3]
          show (summarize m.Status summary, true).2 = fmKeep (s :: rest) inf ign m
          unfold fmKeep fmIgnored fmMatch
          rw [List.any_cons, h2']
          have hsf : (decide (m.Status = MisconfStatus.failure) || inf) = true := by
            revert h3
            cases hst : m.Status <;> cases inf <;> simp [hst]
          rw [hsf]
          simp [h1]
    · rw [fmSevLoop, if_neg h1, fmSevLoop_snd inf ign m rest summary]
      unfold fmKeep fmMatch
      rw [List.any_cons]
      simp [h1]

theorem fmSevLoop_fst_keep (inf : Bool) (ign : List String) (m : DetectedMisconfiguration) :
    ∀ (sevs : List Severity) (summary : MisconfSummary),
      fmKeep sevs inf ign m = true →
      (fmSevLoop inf ign m summary sevs).1 = summarize m.Status summary
  | [], summary, hk => by
    unfold fmKeep fmMatch at hk
    simp at hk
  | s :: rest, summary, hk => by
    have hkm := hk
    unfold fmKeep at hkm
    rw [Bool.and_eq_true, Bool.and_eq_true] at hkm
    obtain ⟨⟨hmm, hni⟩, hst⟩ := hkm
    by_cases h1 : s.goStr = m.Severity
    · have h2' : (ign.contains m.ID || ign.contains m.AVDID) = false := by
        revert hni
        unfold fmIgnored
        cases ign.contains m.ID || ign.contains m.AVDID <;> simp
      rw [fmSevLoop, if_pos h1, if_neg (by rw [h2']; simp)]
      have h3 : ¬ (decide (m.Status ≠ MisconfStatus.failure) && !inf) = true := by
        revert hst
        cases hs : m.Status <;> cases inf <;> simp [hs]
      rw [if_neg h3]
    · rw [fmSevLoop, if_neg h1]
      refine fmSevLoop_fst_keep inf ign m rest summary ?_
      unfold fmKeep at hk ⊢
      unfold fmMatch at hk ⊢
      rw [List.any_cons] at hk
      simpa [h1] using hk

theorem fmSevLoop_fst_drop (inf : Bool) (ign : List String) (m : DetectedMisconfiguration) :
    ∀ (sevs : List Severity) (summary : MisconfSummary),
      (fmMatch sevs m = false ∨ fmIgnored ign m = true) →
      (fmSevLoop inf ign m summary sevs).1 = summary
  | [], _, _ => rfl
  | s :: rest, summary, hd => by
    by_cases h1 : s.goStr = m.Severity
    · rcases hd with hd | hd
      · unfold fmMatch at hd
        rw [List.any_cons] at hd
        simp [h1] at hd
      · rw [fmSevLoop, if_pos h1, if_pos (by simpa [fmIgnored] using hd)]
        exact fmSevLoop_fst_drop inf ign m rest summary (Or.inr hd)
    · rw [fmSevLoop, if_neg h1]
      refine fmSevLoop_fst_drop inf ign m rest summary ?_
      rcases hd with hd | hd
      · refine Or.inl ?_
        unfold fmMatch at hd ⊢
        rw [List.any_cons] at hd
        simpa [h1] using hd
      · exact Or.inr hd

theorem fmLoop_snd (sevs : List Severity) (inf : Bool) (ign : List String) :
    ∀ (ms : List DetectedMisconfiguration) (summary : MisconfSummary)
      (acc : List DetectedMisconfiguration),
      (fmLoop sevs inf ign ms summary acc).2 = acc ++ ms.filter (fmKeep sevs inf ign)
  | [], _, acc => by simp [fmLoop]
  | m :: ms, summary, acc => by
    rw [fmLoop]
    rw [fmSevLoop_snd]
    by_cases hk : fmKeep sevs inf ign m = true
    · rw [hk, List.filter_cons_of_pos hk]
      rw [if_pos rfl]
      rw [fmLoop_snd sevs inf ign ms _ (acc ++ [m])]
      simp
    · have hk' : fmKeep sevs inf ign m = false := by
        revert hk
        cases fmKeep sevs inf ign m <;> simp
      rw [hk', List.filter_cons_of_neg (by simp [hk'])]
      rw [if_neg (by simp)]
      exact fmLoop_snd sevs inf ign ms _ acc

theorem fmLoop_fst_inf_true (sevs : List Severity) (ign : List String) :
    ∀ (ms : List DetectedMisconfiguration) (summary : MisconfSummary)
      (acc : List DetectedMisconfiguration),
      (fmLoop sevs true ign ms summary acc).1 =
        summaryFold (ms.filter (fmKeep sevs true ign)) summary
  | [], _, _ => by simp [fmLoop, summaryFold]
  | m :: ms, summary, acc => by
    rw [fmLoop]
    by_cases hk : fmKeep sevs true ign m = true
    · rw [List.filter_cons_of_pos hk]
      rw [fmSevLoop_fst_keep true ign m sevs summary hk]
      rw [fmLoop_fst_inf_true sevs ign ms _ _]
      rfl
    · have hd : fmMatch sevs m = false ∨ fmIgnored ign m = true := by
        unfold fmKeep at hk
        rcases hm : fmMatch sevs m with _ | _
        · exact Or.inl rfl
        · rcases hi : fmIgnored ign m with _ | _
          · exfalso
            apply hk
            rw [hm, hi]
            simp
          · exact Or.inr rfl
      rw [List.filter_cons_of_neg (by simp [hk]), fmSevLoop_fst_drop true ign m sevs summary hd]
      exact fmLoop_fst_inf_true sevs ign ms _ _

theorem fmLoop_fst_allkeep (sevs : List Severity) (inf : Bool) (ign : List String) :
    ∀ (ms : List DetectedMisconfiguration) (summary : MisconfSummary)
      (acc : List DetectedMisconfiguration),
      (∀ m ∈ ms, fmKeep sevs inf ign m = true) →
      (fmLoop sevs inf ign ms summary acc).1 = summaryFold ms summary
  | [], _, _, _ => by simp [fmLoop, summaryFold]
  | m :: ms, summary, acc, hall => by
    rw [fmLoop, fmSevLoop_fst_keep inf ign m sevs summary (hall m (by simp))]
    rw [fmLoop_fst_allkeep sevs inf ign ms _ _ (fun x hx => hall x (by simp [hx]))]
    rfl

theorem summaryTotal_summarize (st : MisconfStatus) (s : MisconfSummary) :
    summaryTotal (summarize st s) = summaryTotal s + 1 := by
  cases st <;> simp [summarize, summaryTotal] <;> omega

theorem summaryTotal_fold :
    ∀ (ms : List DetectedMisconfiguration) (s : MisconfSummary),
      summaryTotal (summaryFold ms s) = summaryTotal s + ms.length
  | [], s => by simp [summaryFold]
  | m :: ms, s => by
    show summaryTotal (summaryFold ms (summarize m.Status s)) = summaryTotal s + (m :: ms).length
    rw [summaryTotal_fold ms (summarize m.Status s), summaryTotal_summarize, List.length_cons]
    omega

theorem summary_Empty_iff (s : MisconfSummary) :
    s.Empty = true ↔ summaryTotal s = 0 := by
  unfold MisconfSummary.Empty summaryTotal
  constructor
  · intro h
    simp only [Bool.and_eq_true, decide_eq_true_eq] at h
    omega
  · intro h
    simp only [Bool.and_eq_true, decide_eq_true_eq]
    omega

/-! ## Lemmas about the policy evaluation -/

theorem applyPolicyVulns_ok (policy : PolicyInput → RegoResult) :
    ∀ (l acc : List DetectedVulnerability),
      (∀ v ∈ l, policy (.inl v) ≠ .nonBoolean) →
      applyPolicyVulns policy l acc =
        .ok (acc ++ l.filter (fun v => policy (.inl v) ≠ RegoResult.boolean true))
  | [], acc, _ => by simp [applyPolicyVulns]
  | v :: l, acc, h => by
    have hv := h v (by simp)
    rcases hp : policy (.inl v) with _ | b | _
    · rw [applyPolicyVulns]
      rw [hp]
      show applyPolicyVulns policy l (acc ++ [v]) = _
      rw [applyPolicyVulns_ok policy l (acc ++ [v]) (fun x hx => h x (by simp [hx]))]
      rw [List.filter_cons_of_pos (by simp [hp])]
      simp
    · rcases b with _ | _
      · rw [applyPolicyVulns]
        rw [hp]
        show applyPolicyVulns policy l (acc ++ [v]) = _
        rw [applyPolicyVulns_ok policy l (acc ++ [v]) (fun x hx => h x (by simp [hx]))]
        rw [List.filter_cons_of_pos (by simp [hp])]
        simp
      · rw [applyPolicyVulns]
        rw [hp]
        show applyPolicyVulns policy l acc = _
        rw [applyPolicyVulns_ok policy l acc (fun x hx => h x (by simp [hx]))]
        rw [List.filter_cons_of_neg (by simp [hp])]
    · exact absurd hp hv

theorem applyPolicyVulns_error (policy : PolicyInput → RegoResult) :
    ∀ (l acc : List DetectedVulnerability),
      (∃ v ∈ l, policy (.inl v) = .nonBoolean) →
      applyPolicyVulns policy l acc = .error "the policy must return boolean"
  | [], _, h => by
    obtain ⟨v, hv, _⟩ := h
    exact absurd hv (List.not_mem_nil v)
  | v :: l, acc, h => by
    rcases hp : policy (.inl v) with _ | b | _
    · rw [applyPolicyVulns, hp]
      show applyPolicyVulns policy l (acc ++ [v]) = _
      refine applyPolicyVulns_error policy l (acc ++ [v]) ?_
      obtain ⟨w, hw, hwp⟩ := h
      rcases List.mem_cons.1 hw with rfl | hw
      · rw [hp] at hwp
        cases hwp
      · exact ⟨w, hw, hwp⟩
    · obtain ⟨w, hw, hwp⟩ := h
      have hwl : w ∈ l := by
        rcases List.mem_cons.1 hw with rfl | hw'
        · rw [hp] at hwp
          cases hwp
        · exact hw'
      rcases b with _ | _
      · rw [applyPolicyVulns, hp]
        show applyPolicyVulns policy l (acc ++ [v]) = _
        exact applyPolicyVulns_error policy l (acc ++ [v]) ⟨w, hwl, hwp⟩
      · rw [applyPolicyVulns, hp]
        show applyPolicyVulns policy l acc = _
        exact applyPolicyVulns_error policy l acc ⟨w, hwl, hwp⟩
    · rw [applyPolicyVulns, hp]
      rfl

theorem applyPolicyMisconfs_ok (policy : PolicyInput → RegoResult) :
    ∀ (l acc : List DetectedMisconfiguration),
      (∀ m ∈ l, policy (.inr m) ≠ .nonBoolean) →
      applyPolicyMisconfs policy l acc =
        .ok (acc ++ l.filter (fun m => policy (.inr m) ≠ RegoResult.boolean true))
  | [], acc, _ => by simp [applyPolicyMisconfs]
  | m :: l, acc, h => by
    have hv := h m (by simp)
    rcases hp : policy (.inr m) with _ | b | _
    · rw [applyPolicyMisconfs, hp]
      show applyPolicyMisconfs policy l (acc ++ [m]) = _
      rw [applyPolicyMisconfs_ok policy l (acc ++ [m]) (fun x hx => h x (by simp [hx]))]
      rw [List.filter_cons_of_pos (by simp [hp])]
      simp
    · rcases b with _ | _
      · rw [applyPolicyMisconfs, hp]
        show applyPolicyMisconfs policy l (acc ++ [m]) = _
        rw [applyPolicyMisconfs_ok policy l (acc ++ [m]) (fun x hx => h x (by simp [hx]))]
        rw [List.filter_cons_of_pos (by simp [hp])]
        simp
      · rw [applyPolicyMisconfs, hp]
        show applyPolicyMisconfs policy l acc = _
        rw [applyPolicyMisconfs_ok policy l acc (fun x hx => h x (by simp [hx]))]
        rw [List.filter_cons_of_neg (by simp [hp])]
    · exact absurd hp hv

theorem applyPolicyMisconfs_error (policy : PolicyInput → RegoResult) :
    ∀ (l acc : List DetectedMisconfiguration),
      (∃ m ∈ l, policy (.inr m) = .nonBoolean) →
      applyPolicyMisconfs policy l acc = .error "the policy must return boolean"
  | [], _, h => by
    obtain ⟨m, hm, _⟩ := h
    exact absurd hm (List.not_mem_nil m)
  | m :: l, acc, h => by
    rcases hp : policy (.inr m) with _ | b | _
    · rw [applyPolicyMisconfs, hp]
      show applyPolicyMisconfs policy l (acc ++ [m]) = _
      refine applyPolicyMisconfs_error policy l (acc ++ [m]) ?_
      obtain ⟨w, hw, hwp⟩ := h
      rcases List.mem_cons.1 hw with rfl | hw
      · rw [hp] at hwp
        cases hwp
      · exact ⟨w, hw, hwp⟩
    · obtain ⟨w, hw, hwp⟩ := h
      have hwl : w ∈ l := by
        rcases List.mem_cons.1 hw with rfl | hw'
        · rw [hp] at hwp
          cases hwp
        · exact hw'
      rcases b with _ | _
      · rw [applyPolicyMisconfs, hp]
        show applyPolicyMisconfs policy l (acc ++ [m]) = _
        exact applyPolicyMisconfs_error policy l (acc ++ [m]) ⟨w, hwl, hwp⟩
      · rw [applyPolicyMisconfs, hp]
        show applyPolicyMisconfs policy l acc = _
        exact applyPolicyMisconfs_error policy l acc ⟨w, hwl, hwp⟩
    · rw [applyPolicyMisconfs, hp]
      rfl

/-- C5 (confirmed): `applyPolicy` evaluates `data.trivy.ignore` on every
vulnerability and then on every misconfiguration: a finding evaluating to
boolean `true` is dropped, one evaluating to boolean `false` (or to an
undefined result) is kept, and any finding with a defined non-boolean result
makes the whole filtering fail with the fatal error "the policy must return
boolean", in which case no filtered lists are produced. -/
theorem applyPolicy_spec (policy : PolicyInput → RegoResult)
    (vulns : List DetectedVulnerability) (misconfs : List DetectedMisconfiguration) :
    ((∀ v ∈ vulns, policy (.inl v) ≠ .nonBoolean) →
     (∀ m ∈ misconfs, policy (.inr m) ≠ .nonBoolean) →
      applyPolicy policy vulns misconfs =
        .ok (vulns.filter (fun v => policy (.inl v) ≠ RegoResult.boolean true),
             misconfs.filter (fun m => policy (.inr m) ≠ RegoResult.boolean true))) ∧
    (((∃ v ∈ vulns, policy (.inl v) = .nonBoolean) ∨
      (∃ m ∈ misconfs, policy (.inr m) = .nonBoolean)) →
      applyPolicy policy vulns misconfs = .error "the policy must return boolean") := by
  constructor
  · intro hv hm
    rw [applyPolicy, applyPolicyVulns_ok policy vulns [] hv,
      applyPolicyMisconfs_ok policy misconfs [] hm]
    simp
  · intro h
    rcases h with h | h
    · rw [applyPolicy, applyPolicyVulns_error policy vulns [] h]
    · rw [applyPolicy]
      by_cases hv : ∀ v ∈ vulns, policy (.inl v) ≠ .nonBoolean
      · rw [applyPolicyVulns_ok policy vulns [] hv,
          applyPolicyMisconfs_error policy misconfs [] h]
      · push_neg at hv
        obtain ⟨v, hvm, hvp⟩ := hv
        rw [applyPolicyVulns_error policy vulns [] ⟨v, hvm, hvp⟩]

theorem applyPolicy_spec_witness :
    applyPolicy c5policyTrue [c5vuln] [] = .ok ([], []) ∧
    applyPolicy c5policyBad [c5vuln] [] = .error "the policy must return boolean" := by
  constructor
  · have h := (applyPolicy_spec c5policyTrue [c5vuln] []).1 (by decide)
      (fun m hm => absurd hm (List.not_mem_nil m))
    rw [h]
    rfl
  · exact (applyPolicy_spec c5policyBad [c5vuln] []).2 (Or.inl ⟨c5vuln, by simp, rfl⟩)

/-! ## Helper lemmas for idempotence (C4) -/

theorem fvDefault_idem (v : DetectedVulnerability) : fvDefault (fvDefault v) = fvDefault v := by
  by_cases h : v.Severity = ""
  · simp [fvDefault, h, Severity.goStr]
  · simp [fvDefault, h]

theorem mem_fvInsert {p : String × DetectedVulnerability} {v : DetectedVulnerability}
    {m : List (String × DetectedVulnerability)} :
    p ∈ fvInsert v m → p = (vulnKey v, v) ∨ p ∈ m := by
  rw [fvInsert]
  rcases mapGet (vulnKey v) m with _ | old
  · exact fun hp => mem_mapPut p _ v m hp
  · show p ∈ (if (!shouldOverwrite old v) = true then m else mapPut (vulnKey v) v m) → _
    by_cases ho : (!shouldOverwrite old v) = true
    · rw [if_pos ho]
      exact fun hp => Or.inr hp
    · rw [if_neg ho]
      exact fun hp => mem_mapPut p _ v m hp

theorem fvLoop_values (sevs : List Severity) (iu : Bool) (ign : List String) :
    ∀ (vulns : List DetectedVulnerability) (m : List (String × DetectedVulnerability))
      (p : String × DetectedVulnerability), p ∈ fvLoop sevs iu ign vulns m →
      p ∈ m ∨ ∃ v ∈ vulns, p.2 = fvDefault v ∧ fvSurvives sevs iu ign (fvDefault v) = true
  | [], _, p, hp => Or.inl hp
  | v :: vulns, m, p, hp => by
    rw [fvLoop_cons, fvSevLoop_eq] at hp
    by_cases hs : fvSurvives sevs iu ign (fvDefault v) = true
    · rw [if_pos hs] at hp
      rcases fvLoop_values sevs iu ign vulns _ p hp with hp' | ⟨w, hw, he, hs'⟩
      · rcases mem_fvInsert hp' with he | hp''
        · exact Or.inr ⟨v, by simp, by rw [he], hs⟩
        · exact Or.inl hp''
      · exact Or.inr ⟨w, by simp [hw], he, hs'⟩
    · rw [if_neg hs] at hp
      rcases fvLoop_values sevs iu ign vulns m p hp with hp' | ⟨w, hw, he, hs'⟩
      · exact Or.inl hp'
      · exact Or.inr ⟨w, by simp [hw], he, hs'⟩

theorem mapPut_fresh {α : Type} (k : String) (v : α) :
    ∀ m, mapGet k m = none → mapPut k v m = m ++ [(k, v)]
  | [], _ => rfl
  | (k', v') :: rest, h => by
    rw [mapGet] at h
    by_cases hk : k' = k
    · rw [if_pos hk] at h
      cases h
    · rw [if_neg hk] at h
      rw [mapPut, if_neg hk, mapPut_fresh k v rest h]
      rfl

theorem mapGet_append_none {α : Type} (k k' : String) (v : α) :
    ∀ m, mapGet k m = none → k' ≠ k → mapGet k (m ++ [(k', v)]) = none
  | [], _, hne => by
    rw [List.nil_append, mapGet, if_neg hne]
    rfl
  | (k'', v'') :: rest, h, hne => by
    rw [mapGet] at h
    by_cases hk : k'' = k
    · rw [if_pos hk] at h
      cases h
    · rw [if_neg hk] at h
      rw [List.cons_append, mapGet, if_neg hk]
      exact mapGet_append_none k k' v rest h hne

theorem fvLoop_fresh (sevs : List Severity) (iu : Bool) (ign : List String) :
    ∀ (vulns : List DetectedVulnerability) (m : List (String × DetectedVulnerability)),
      (∀ v ∈ vulns, fvDefault v = v ∧ fvSurvives sevs iu ign v = true) →
      (vulns.map vulnKey).Nodup →
      (∀ v ∈ vulns, mapGet (vulnKey v) m = none) →
      fvLoop sevs iu ign vulns m = m ++ vulns.map (fun v => (vulnKey v, v))
  | [], m, _, _, _ => by simp [fvLoop]
  | v :: vulns, m, hQ, hnd, hfresh => by
    obtain ⟨hdef, hsurv⟩ := hQ v (by simp)
    rw [fvLoop_cons, fvSevLoop_eq, hdef, if_pos hsurv]
    have hins : fvInsert v m = m ++ [(vulnKey v, v)] := by
      unfold fvInsert
      rw [hfresh v (by simp)]
      exact mapPut_fresh _ v m (hfresh v (by simp))
    rw [hins]
    rw [List.map_cons, List.nodup_cons] at hnd
    have hne : ∀ x ∈ vulns, vulnKey v ≠ vulnKey x := by
      intro x hx he
      exact hnd.1 (he ▸ List.mem_map_of_mem vulnKey hx)
    rw [fvLoop_fresh sevs iu ign vulns (m ++ [(vulnKey v, v)])
      (fun x hx => hQ x (by simp [hx])) hnd.2
      (fun x hx => mapGet_append_none _ _ _ m (hfresh x (by simp [hx])) (hne x hx))]
    simp

theorem filterVulns_keys_nodup (vulns : List DetectedVulnerability) (sevs : List Severity)
    (iu : Bool) (ign : List String) (vexPath : String) :
    ((filterVulnerabilities vulns sevs iu ign vexPath).map vulnKey).Nodup := by
  have hwf : wfVulnMap (fvLoop sevs iu ign vulns []) :=
    wf_fvLoop sevs iu ign vulns [] (fun p hp => absurd hp (List.not_mem_nil p))
  have hkeys : ((fvLoop sevs iu ign vulns []).map Prod.fst).Nodup :=
    nodup_keys_fvLoop sevs iu ign vulns [] (by simp)
  rw [filterVulnerabilities, List.map_map]
  have : ((fvLoop sevs iu ign vulns []).map (vulnKey ∘ Prod.snd)) =
      ((fvLoop sevs iu ign vulns []).map Prod.fst) :=
    List.map_congr_left (fun p hp => hwf p hp)
  rw [this]
  exact hkeys

theorem filterVulns_self (sevs : List Severity) (iu : Bool) (ign : List String)
    (vexPath : String) (l : List DetectedVulnerability)
    (hQ : ∀ v ∈ l, fvDefault v = v ∧ fvSurvives sevs iu ign v = true)
    (hnd : (l.map vulnKey).Nodup) :
    filterVulnerabilities l sevs iu ign vexPath = l := by
  rw [filterVulnerabilities, fvLoop_fresh sevs iu ign l [] hQ hnd (fun v _ => rfl)]
  simp only [List.nil_append, List.map_map]
  show List.map (fun v => v) l = l
  exact List.map_id' l

theorem filterVulns_elems (vulns : List DetectedVulnerability) (sevs : List Severity)
    (iu : Bool) (ign : List String) (vexPath : String) :
    ∀ v ∈ filterVulnerabilities vulns sevs iu ign vexPath,
      fvDefault v = v ∧ fvSurvives sevs iu ign v = true := by
  intro v hv
  rw [filterVulnerabilities] at hv
  obtain ⟨p, hp, hpv⟩ := List.mem_map.1 hv
  rcases fvLoop_values sevs iu ign vulns [] p hp with h0 | ⟨w, _, he, hs⟩
  · exact absurd h0 (List.not_mem_nil p)
  · rw [← hpv, he]
    exact ⟨fvDefault_idem w, hs⟩

theorem sortVulns_perm (l : List DetectedVulnerability) : (sortVulns l).Perm l :=
  List.perm_insertionSort bySeverity l

theorem sortVulns_sorted (l : List DetectedVulnerability) :
    List.Sorted bySeverity (sortVulns l) :=
  List.sorted_insertionSort bySeverity l

theorem sortVulns_of_sorted {l : List DetectedVulnerability}
    (h : List.Sorted bySeverity l) : sortVulns l = l :=
  h.insertionSort_eq

theorem applyPolicyVulns_ok_inv (policy : PolicyInput → RegoResult)
    (l acc r : List DetectedVulnerability) (h : applyPolicyVulns policy l acc = .ok r) :
    ∀ v ∈ l, policy (.inl v) ≠ .nonBoolean := by
  intro v hv he
  rw [applyPolicyVulns_error policy l acc ⟨v, hv, he⟩] at h
  cases h

theorem applyPolicyMisconfs_ok_inv (policy : PolicyInput → RegoResult)
    (l acc r : List DetectedMisconfiguration) (h : applyPolicyMisconfs policy l acc = .ok r) :
    ∀ m ∈ l, policy (.inr m) ≠ .nonBoolean := by
  intro m hm he
  rw [applyPolicyMisconfs_error policy l acc ⟨m, hm, he⟩] at h
  cases h

/-- `filterMisconfigurations` unfolded (the `let` made explicit). -/
theorem filterMisconfigurations_eq (misconfs : List DetectedMisconfiguration)
    (sevs : List Severity) (inf : Bool) (ign : List String) :
    filterMisconfigurations misconfs sevs inf ign =
      if (fmLoop sevs inf ign misconfs ⟨0, 0, 0⟩ []).1.Empty then (none, [])
      else (some (fmLoop sevs inf ign misconfs ⟨0, 0, 0⟩ []).1,
        (fmLoop sevs inf ign misconfs ⟨0, 0, 0⟩ []).2) := rfl

theorem filterMisconfigurations_idem (ms : List DetectedMisconfiguration)
    (sevs : List Severity) (inf : Bool) (ign : List String) :
    (filterMisconfigurations (filterMisconfigurations ms sevs inf ign).2 sevs inf ign).2 =
      (filterMisconfigurations ms sevs inf ign).2 ∧
    (inf = true →
      (filterMisconfigurations (filterMisconfigurations ms sevs inf ign).2 sevs inf ign).1 =
        (filterMisconfigurations ms sevs inf ign).1) := by
  rcases hE : (fmLoop sevs inf ign ms ⟨0, 0, 0⟩ []).1.Empty with _ | _
  · -- the first summary is non-empty: the first output is (some summary, kept)
    have h1 : filterMisconfigurations ms sevs inf ign =
        (some (fmLoop sevs inf ign ms ⟨0, 0, 0⟩ []).1,
          ms.filter (fmKeep sevs inf ign)) := by
      rw [filterMisconfigurations_eq, if_neg (by rw [hE]; simp), fmLoop_snd]
      rfl
    have hallkeep : ∀ m ∈ ms.filter (fmKeep sevs inf ign), fmKeep sevs inf ign m = true :=
      fun m hm => List.of_mem_filter hm
    have hsnd2 : (fmLoop sevs inf ign (ms.filter (fmKeep sevs inf ign)) ⟨0, 0, 0⟩ []).2 =
        ms.filter (fmKeep sevs inf ign) := by
      rw [fmLoop_snd]
      simp only [List.nil_append]
      exact List.filter_eq_self.2 hallkeep
    have hfst2 : (fmLoop sevs inf ign (ms.filter (fmKeep sevs inf ign)) ⟨0, 0, 0⟩ []).1 =
        summaryFold (ms.filter (fmKeep sevs inf ign)) ⟨0, 0, 0⟩ :=
      fmLoop_fst_allkeep sevs inf ign _ _ _ hallkeep
    rcases hnil : ms.filter (fmKeep sevs inf ign) with _ | ⟨m0, rest⟩
    · -- no survivors: both runs give an empty list
      rw [h1, hnil]
      constructor
      · rw [filterMisconfigurations_eq]
        split_ifs <;> simp [fmLoop]
      · intro hinf
        subst hinf
        exfalso
        have := fmLoop_fst_inf_true sevs ign ms ⟨0, 0, 0⟩ []
        rw [hnil] at this
        rw [this] at hE
        simp [summaryFold, MisconfSummary.Empty] at hE
    · -- survivors exist
      have hne2 : ¬ (fmLoop sevs inf ign (ms.filter (fmKeep sevs inf ign)) ⟨0, 0, 0⟩
          []).1.Empty = true := by
        rw [hfst2, summary_Empty_iff, summaryTotal_fold, hnil]
        simp [summaryTotal]
      constructor
      · rw [h1]
        show (filterMisconfigurations (ms.filter (fmKeep sevs inf ign)) sevs inf ign).2 = _
        rw [filterMisconfigurations_eq, if_neg hne2]
        exact hsnd2
      · intro hinf
        subst hinf
        rw [h1]
        show (filterMisconfigurations (ms.filter (fmKeep sevs true ign)) sevs true ign).1 = _
        rw [filterMisconfigurations_eq, if_neg hne2]
        show some (fmLoop sevs true ign (ms.filter (fmKeep sevs true ign)) ⟨0, 0, 0⟩ []).1 = _
        rw [hfst2, fmLoop_fst_inf_true sevs ign ms ⟨0, 0, 0⟩ []]
  · -- the first summary is empty: the first output is (none, [])
    have h1 : filterMisconfigurations ms sevs inf ign = (none, []) := by
      rw [filterMisconfigurations_eq, if_pos hE]
    rw [h1]
    constructor
    · rw [filterMisconfigurations_eq]
      split_ifs <;> simp [fmLoop]
    · intro _
      rw [filterMisconfigurations_eq]
      split_ifs with h
      · rfl
      · exfalso
        exact h (by simp [fmLoop, MisconfSummary.Empty])

theorem FilterResult_none_eq (now : Nat) (result : Result) (opt : FilterOption)
    (h : opt.PolicyFile = none) :
    FilterResult now result opt =
      ({ result with
          Secrets := filterSecrets result.Secrets opt.Severities
            (getIgnoredIDs opt.IgnoreFile now)
          Licenses := filterLicenses result.Licenses opt.Severities opt.IgnoreLicenses
          Vulnerabilities := sortVulns (filterVulnerabilities result.Vulnerabilities
            opt.Severities opt.IgnoreUnfixed (getIgnoredIDs opt.IgnoreFile now) opt.VEXPath)
          Misconfigurations := (filterMisconfigurations result.Misconfigurations opt.Severities
            opt.IncludeNonFailures (getIgnoredIDs opt.IgnoreFile now)).2
          MisconfSummary := (filterMisconfigurations result.Misconfigurations opt.Severities
            opt.IncludeNonFailures (getIgnoredIDs opt.IgnoreFile now)).1 }, none) := by
  simp only [FilterResult, h]

theorem FilterResult_policy_ok_eq (now : Nat) (result : Result) (opt : FilterOption)
    (policy : PolicyInput → RegoResult)
    (kv : List DetectedVulnerability) (km : List DetectedMisconfiguration)
    (h : opt.PolicyFile = some policy)
    (hap : applyPolicy policy
        (filterVulnerabilities result.Vulnerabilities opt.Severities opt.IgnoreUnfixed
          (getIgnoredIDs opt.IgnoreFile now) opt.VEXPath)
        (filterMisconfigurations result.Misconfigurations opt.Severities
          opt.IncludeNonFailures (getIgnoredIDs opt.IgnoreFile now)).2 = .ok (kv, km)) :
    FilterResult now result opt =
      ({ result with
          Secrets := filterSecrets result.Secrets opt.Severities
            (getIgnoredIDs opt.IgnoreFile now)
          Licenses := filterLicenses result.Licenses opt.Severities opt.IgnoreLicenses
          Vulnerabilities := sortVulns kv
          Misconfigurations := km
          MisconfSummary := (filterMisconfigurations result.Misconfigurations opt.Severities
            opt.IncludeNonFailures (getIgnoredIDs opt.IgnoreFile now)).1 }, none) := by
  simp only [FilterResult, h, hap]

theorem FilterResult_policy_error_eq (now : Nat) (result : Result) (opt : FilterOption)
    (policy : PolicyInput → RegoResult) (e : String)
    (h : opt.PolicyFile = some policy)
    (hap : applyPolicy policy
        (filterVulnerabilities result.Vulnerabilities opt.Severities opt.IgnoreUnfixed
          (getIgnoredIDs opt.IgnoreFile now) opt.VEXPath)
        (filterMisconfigurations result.Misconfigurations opt.Severities
          opt.IncludeNonFailures (getIgnoredIDs opt.IgnoreFile now)).2 = .error e) :
    FilterResult now result opt =
      ({ result with
          Secrets := filterSecrets result.Secrets opt.Severities
            (getIgnoredIDs opt.IgnoreFile now)
          Licenses := filterLicenses result.Licenses opt.Severities opt.IgnoreLicenses },
       some ("failed to apply the policy: " ++ e)) := by
  simp only [FilterResult, h, hap]

theorem filterMisconfigurations_snd_allkeep (ms : List DetectedMisconfiguration)
    (sevs : List Severity) (inf : Bool) (ign : List String) :
    ∀ m ∈ (filterMisconfigurations ms sevs inf ign).2, fmKeep sevs inf ign m = true := by
  rw [filterMisconfigurations_eq]
  split_ifs
  · intro m hm
    exact absurd hm (List.not_mem_nil m)
  · intro m hm
    rw [fmLoop_snd, List.nil_append] at hm
    exact List.of_mem_filter hm

theorem filterMisconfigurations_allkeep (l : List DetectedMisconfiguration)
    (sevs : List Severity) (inf : Bool) (ign : List String)
    (hall : ∀ m ∈ l, fmKeep sevs inf ign m = true) :
    (filterMisconfigurations l sevs inf ign).2 = l := by
  rw [filterMisconfigurations_eq]
  have hsnd : (fmLoop sevs inf ign l ⟨0, 0, 0⟩ []).2 = l := by
    rw [fmLoop_snd, List.nil_append]
    exact List.filter_eq_self.2 hall
  split_ifs with hE
  · rcases l with _ | ⟨m, rest⟩
    · rfl
    · exfalso
      rw [fmLoop_fst_allkeep sevs inf ign _ _ _ hall, summary_Empty_iff,
        summaryTotal_fold] at hE
      simp [summaryTotal] at hE
  · exact hsnd

theorem FilterResult_idempotent_counterexample :
    (FilterResult 0 c4res c4opt).2 = none ∧
    (FilterResult 0 (FilterResult 0 c4res c4opt).1 c4opt).2 = none ∧
    (FilterResult 0 c4res c4opt).1.MisconfSummary =
      some { Successes := 1, Failures := 0, Exceptions := 0 } ∧
    (FilterResult 0 (FilterResult 0 c4res c4opt).1 c4opt).1.MisconfSummary = none := by
  refine ⟨by decide, by decide, by decide, by decide⟩

/-- C4 (amended/corrected): `FilterResult` applied a second time to the output
of a successful first application (same option, same clock) succeeds and
leaves the vulnerability list and the misconfiguration list unchanged; the
misconfiguration summary is also unchanged when `IncludeNonFailures` is true
and no policy is configured, but not in general (the summary recounts only
the surviving findings, forgetting filtered-out non-failures). -/
theorem FilterResult_idempotent (now : Nat) (res r1 : Result) (opt : FilterOption)
    (h1 : FilterResult now res opt = (r1, none)) :
    ∃ r2, FilterResult now r1 opt = (r2, none) ∧
      r2.Vulnerabilities = r1.Vulnerabilities ∧
      r2.Misconfigurations = r1.Misconfigurations ∧
      (opt.IncludeNonFailures = true → opt.PolicyFile = none →
        r2.MisconfSummary = r1.MisconfSummary) := by
  rcases hpol : opt.PolicyFile with _ | policy
  · -- no policy file
    rw [FilterResult_none_eq now res opt hpol] at h1
    have hr1 : r1 = { res with
        Secrets := filterSecrets res.Secrets opt.Severities (getIgnoredIDs opt.IgnoreFile now)
        Licenses := filterLicenses res.Licenses opt.Severities opt.IgnoreLicenses
        Vulnerabilities := sortVulns (filterVulnerabilities res.Vulnerabilities opt.Severities
          opt.IgnoreUnfixed (getIgnoredIDs opt.IgnoreFile now) opt.VEXPath)
        Misconfigurations := (filterMisconfigurations res.Misconfigurations opt.Severities
          opt.IncludeNonFailures (getIgnoredIDs opt.IgnoreFile now)).2
        MisconfSummary := (filterMisconfigurations res.Misconfigurations opt.Severities
          opt.IncludeNonFailures (getIgnoredIDs opt.IgnoreFile now)).1 } :=
      (congrArg Prod.fst h1).symm
    have hV1 : r1.Vulnerabilities = sortVulns (filterVulnerabilities res.Vulnerabilities
        opt.Severities opt.IgnoreUnfixed (getIgnoredIDs opt.IgnoreFile now) opt.VEXPath) := by
      rw [hr1]
    have hM1 : r1.Misconfigurations = (filterMisconfigurations res.Misconfigurations
        opt.Severities opt.IncludeNonFailures (getIgnoredIDs opt.IgnoreFile now)).2 := by
      rw [hr1]
    have hS1 : r1.MisconfSummary = (filterMisconfigurations res.Misconfigurations
        opt.Severities opt.IncludeNonFailures (getIgnoredIDs opt.IgnoreFile now)).1 := by
      rw [hr1]
    have hfv2 : filterVulnerabilities r1.Vulnerabilities opt.Severities opt.IgnoreUnfixed
        (getIgnoredIDs opt.IgnoreFile now) opt.VEXPath = r1.Vulnerabilities := by
      rw [hV1]
      refine filterVulns_self _ _ _ _ _ ?_ ?_
      · intro v hv
        exact filterVulns_elems res.Vulnerabilities _ _ _ _ v
          ((sortVulns_perm _).mem_iff.1 hv)
      · exact ((sortVulns_perm _).map vulnKey).nodup_iff.2
          (filterVulns_keys_nodup res.Vulnerabilities _ _ _ _)
    have hsort2 : sortVulns r1.Vulnerabilities = r1.Vulnerabilities := by
      rw [hV1]
      exact sortVulns_of_sorted (sortVulns_sorted _)
    refine ⟨_, FilterResult_none_eq now r1 opt hpol, ?_, ?_, ?_⟩
    · show sortVulns (filterVulnerabilities r1.Vulnerabilities opt.Severities opt.IgnoreUnfixed
        (getIgnoredIDs opt.IgnoreFile now) opt.VEXPath) = r1.Vulnerabilities
      rw [hfv2, hsort2]
    · show (filterMisconfigurations r1.Misconfigurations opt.Severities opt.IncludeNonFailures
        (getIgnoredIDs opt.IgnoreFile now)).2 = r1.Misconfigurations
      rw [hM1]
      exact (filterMisconfigurations_idem res.Misconfigurations opt.Severities
        opt.IncludeNonFailures (getIgnoredIDs opt.IgnoreFile now)).1
    · intro hinf _
      show (filterMisconfigurations r1.Misconfigurations opt.Severities opt.IncludeNonFailures
        (getIgnoredIDs opt.IgnoreFile now)).1 = r1.MisconfSummary
      rw [hM1, hS1]
      exact (filterMisconfigurations_idem res.Misconfigurations opt.Severities
        opt.IncludeNonFailures (getIgnoredIDs opt.IgnoreFile now)).2 hinf
  · -- a policy file is configured
    rcases hap : applyPolicy policy
        (filterVulnerabilities res.Vulnerabilities opt.Severities opt.IgnoreUnfixed
          (getIgnoredIDs opt.IgnoreFile now) opt.VEXPath)
        (filterMisconfigurations res.Misconfigurations opt.Severities
          opt.IncludeNonFailures (getIgnoredIDs opt.IgnoreFile now)).2 with e | kvm
    · rw [FilterResult_policy_error_eq now res opt policy e hpol hap] at h1
      have := congrArg Prod.snd h1
      simp at this
    · obtain ⟨kv, km⟩ := kvm
      rw [FilterResult_policy_ok_eq now res opt policy kv km hpol hap] at h1
      have hr1 : r1 = { res with
          Secrets := filterSecrets res.Secrets opt.Severities (getIgnoredIDs opt.IgnoreFile now)
          Licenses := filterLicenses res.Licenses opt.Severities opt.IgnoreLicenses
          Vulnerabilities := sortVulns kv
          Misconfigurations := km
          MisconfSummary := (filterMisconfigurations res.Misconfigurations opt.Severities
            opt.IncludeNonFailures (getIgnoredIDs opt.IgnoreFile now)).1 } :=
        (congrArg Prod.fst h1).symm
      have hV1 : r1.Vulnerabilities = sortVulns kv := by rw [hr1]
      have hM1 : r1.Misconfigurations = km := by rw [hr1]
      -- unpack applyPolicy
      have hapv : applyPolicyVulns policy (filterVulnerabilities res.Vulnerabilities
          opt.Severities opt.IgnoreUnfixed (getIgnoredIDs opt.IgnoreFile now) opt.VEXPath)
          [] = .ok kv ∧
          applyPolicyMisconfs policy (filterMisconfigurations res.Misconfigurations
            opt.Severities opt.IncludeNonFailures (getIgnoredIDs opt.IgnoreFile now)).2
          [] = .ok km := by
        rw [applyPolicy] at hap
        rcases h1v : applyPolicyVulns policy (filterVulnerabilities res.Vulnerabilities
            opt.Severities opt.IgnoreUnfixed (getIgnoredIDs opt.IgnoreFile now) opt.VEXPath)
            [] with e | fvk
        · rw [h1v] at hap
          cases hap
        · rw [h1v] at hap
          rcases h1m : applyPolicyMisconfs policy (filterMisconfigurations
              res.Misconfigurations opt.Severities opt.IncludeNonFailures
              (getIgnoredIDs opt.IgnoreFile now)).2 [] with e | fmk
          · rw [h1m] at hap
            cases hap
          · rw [h1m] at hap
            injection hap with hpair
            rw [Prod.mk.injEq] at hpair
            obtain ⟨hfv, hfm⟩ := hpair
            subst hfv
            subst hfm
            exact ⟨rfl, rfl⟩
      obtain ⟨hapv1, hapm1⟩ := hapv
      have hnbv := applyPolicyVulns_ok_inv policy _ [] kv hapv1
      have hnbm := applyPolicyMisconfs_ok_inv policy _ [] km hapm1
      have hkv : kv = (filterVulnerabilities res.Vulnerabilities opt.Severities
          opt.IgnoreUnfixed (getIgnoredIDs opt.IgnoreFile now) opt.VEXPath).filter
          (fun v => policy (.inl v) ≠ RegoResult.boolean true) := by
        have h := hapv1
        rw [applyPolicyVulns_ok policy _ [] hnbv] at h
        simp only [List.nil_append] at h
        injection h with h'
        exact h'.symm
      have hkm : km = ((filterMisconfigurations res.Misconfigurations opt.Severities
          opt.IncludeNonFailures (getIgnoredIDs opt.IgnoreFile now)).2).filter
          (fun m => policy (.inr m) ≠ RegoResult.boolean true) := by
        have h := hapm1
        rw [applyPolicyMisconfs_ok policy _ [] hnbm] at h
        simp only [List.nil_append] at h
        injection h with h'
        exact h'.symm
      -- run 2: the vulnerability filter is the identity on `sortVulns kv`
      have hfv2 : filterVulnerabilities r1.Vulnerabilities opt.Severities opt.IgnoreUnfixed
          (getIgnoredIDs opt.IgnoreFile now) opt.VEXPath = sortVulns kv := by
        rw [hV1]
        refine filterVulns_self _ _ _ _ _ ?_ ?_
        · intro v hv
          have hvkv : v ∈ kv := (sortVulns_perm kv).mem_iff.1 hv
          refine filterVulns_elems res.Vulnerabilities opt.Severities opt.IgnoreUnfixed
            (getIgnoredIDs opt.IgnoreFile now) opt.VEXPath v ?_
          rw [hkv] at hvkv
          exact List.mem_of_mem_filter hvkv
        · refine ((sortVulns_perm kv).map vulnKey).nodup_iff.2 ?_
          have hsub : (kv.map vulnKey).Sublist ((filterVulnerabilities res.Vulnerabilities
              opt.Severities opt.IgnoreUnfixed (getIgnoredIDs opt.IgnoreFile now)
              opt.VEXPath).map vulnKey) := by
            rw [hkv]
            exact (List.filter_sublist _).map vulnKey
          exact (filterVulns_keys_nodup res.Vulnerabilities _ _ _ _).sublist hsub
      -- run 2: the misconfiguration filter is the identity on `km`
      have hfm2 : (filterMisconfigurations r1.Misconfigurations opt.Severities
          opt.IncludeNonFailures (getIgnoredIDs opt.IgnoreFile now)).2 = km := by
        rw [hM1]
        refine filterMisconfigurations_allkeep km opt.Severities opt.IncludeNonFailures
          (getIgnoredIDs opt.IgnoreFile now) ?_
        intro m hm
        rw [hkm] at hm
        exact filterMisconfigurations_snd_allkeep res.Misconfigurations _ _ _ m
          (List.mem_of_mem_filter hm)
      -- run 2: the policy keeps everything it already kept
      have hnb2 : ∀ v ∈ sortVulns kv, policy (.inl v) ≠ .nonBoolean := by
        intro v hv
        have hvkv : v ∈ kv := (sortVulns_perm kv).mem_iff.1 hv
        rw [hkv] at hvkv
        exact hnbv v (List.mem_of_mem_filter hvkv)
      have hpredv : ∀ v ∈ sortVulns kv,
          (decide (policy (.inl v) ≠ RegoResult.boolean true)) = true := by
        intro v hv
        have hvkv : v ∈ kv := (sortVulns_perm kv).mem_iff.1 hv
        rw [hkv] at hvkv
        exact (List.mem_filter.1 hvkv).2
      have hv2ok : applyPolicyVulns policy (sortVulns kv) [] = .ok (sortVulns kv) := by
        rw [applyPolicyVulns_ok policy _ [] hnb2, List.nil_append,
          List.filter_eq_self.2 hpredv]
      have hnbm2 : ∀ m ∈ km, policy (.inr m) ≠ .nonBoolean := by
        intro m hm
        rw [hkm] at hm
        exact hnbm m (List.mem_of_mem_filter hm)
      have hpredm : ∀ m ∈ km,
          (decide (policy (.inr m) ≠ RegoResult.boolean true)) = true := by
        intro m hm
        rw [hkm] at hm
        exact (List.mem_filter.1 hm).2
      have hm2ok : applyPolicyMisconfs policy km [] = .ok km := by
        rw [applyPolicyMisconfs_ok policy _ [] hnbm2, List.nil_append,
          List.filter_eq_self.2 hpredm]
      have hap2 : applyPolicy policy (sortVulns kv) km = .ok (sortVulns kv, km) := by
        simp only [applyPolicy, hv2ok, hm2ok]
      refine ⟨_, FilterResult_policy_ok_eq now r1 opt policy (sortVulns kv) km hpol
        (by rw [hfv2, hfm2]; exact hap2), ?_, ?_, ?_⟩
      · show sortVulns (sortVulns kv) = r1.Vulnerabilities
        rw [sortVulns_of_sorted (sortVulns_sorted kv), hV1]
      · show km = r1.Misconfigurations
        rw [hM1]
      · intro _ hnone
        exact Option.noConfusion hnone

/-- Witness for C4: the amended idempotence theorem applied at the concrete
input `c4res`/`c4opt`, whose first `FilterResult` run succeeds. -/
theorem FilterResult_idempotent_witness :
    ∃ r2, FilterResult 0 (FilterResult 0 c4res c4opt).1 c4opt = (r2, none) ∧
      r2.Vulnerabilities = (FilterResult 0 c4res c4opt).1.Vulnerabilities ∧
      r2.Misconfigurations = (FilterResult 0 c4res c4opt).1.Misconfigurations ∧
      (c4opt.IncludeNonFailures = true → c4opt.PolicyFile = none →
        r2.MisconfSummary = (FilterResult 0 c4res c4opt).1.MisconfSummary) :=
  FilterResult_idempotent 0 c4res (FilterResult 0 c4res c4opt).1 c4opt (by rfl)

/-! ### C6: the ignore-file reader -/

theorem foldl_ignore_filterMap (now : Nat) (lines : List String) (acc : List String) :
    List.foldl (fun acc line => match ignoreLineID now line with
      | some i => acc ++ [i]
      | none => acc) acc lines = acc ++ lines.filterMap (ignoreLineID now) := by
  induction lines generalizing acc with
  | nil => simp
  | cons x xs ih =>
    simp only [List.foldl_cons, List.filterMap_cons]
    cases h : ignoreLineID now x with
    | none => rw [ih]
    | some b => rw [ih]; simp

theorem getExpirationDate_firstExp (fields : List String) :
    getExpirationDate fields = (match firstExpField fields with
      | none => Except.ok zeroDate
      | some f => (match parseDate (String.mk (f.toList.drop 4)) with
        | some d => Except.ok d
        | none => Except.error ())) := by
  induction fields with
  | nil => rfl
  | cons f rest ih =>
    cases hf : goHasLead f "exp:" with
    | true => simp [getExpirationDate, firstExpField, hf]
    | false =>
      simp only [getExpirationDate, firstExpField, hf]
      simpa using ih

theorem ignoreLineID_eq_amended (now : Nat) (l : String) :
    ignoreLineID now l = ignoreLineIDAmended now l := by
  unfold ignoreLineID ignoreLineIDAmended
  dsimp only
  split
  · rfl
  · rw [getExpirationDate_firstExp]
    have hz : (!zeroDate.IsZero && zeroDate.IsBefore now) = false := by
      simp [Date.IsZero]
    rcases Nat.lt_or_ge 1 (goFields (goTrimSpace l)).length with hl | hl
    · rw [if_pos hl, if_neg (Nat.not_le.2 hl)]
      rcases hf : firstExpField (goFields (goTrimSpace l)) with _ | f
      · simp [hz]
      · dsimp only
        rcases hp : parseDate (String.mk (f.toList.drop 4)) with _ | d <;> rfl
    · rw [if_neg (Nat.not_lt.2 hl), if_pos hl]

/-- C6 (counterexample to the literal claim): `getExpirationDate` scans *all*
fields, the first included, so the line `"exp:2000-01-01 CVE-X"` is dropped by
the code although the claim — which scans only the remaining fields — keeps
its first field; and a parsed `exp:` date equal to the zero date
`0001-01-01`, though strictly in the past, never deactivates a line in the
code (`!exp.IsZero` guards the comparison), while the claim deactivates it. -/
theorem getIgnoredIDs_counterexample :
    getIgnoredIDs (some ["exp:2000-01-01 CVE-X"]) (Date.instant ⟨2026, 10, 11⟩) = [] ∧
    getIgnoredIDsClaim (some ["exp:2000-01-01 CVE-X"]) (Date.instant ⟨2026, 10, 11⟩) =
      ["exp:2000-01-01"] ∧
    getIgnoredIDs (some ["CVE-B exp:0001-01-01"]) (Date.instant ⟨2026, 10, 11⟩) = ["CVE-B"] ∧
    getIgnoredIDsClaim (some ["CVE-B exp:0001-01-01"]) (Date.instant ⟨2026, 10, 11⟩) = [] := by
  refine ⟨by decide, by decide, by decide, by decide⟩

/-- C6 (amended): on every ignore file and clock, `getIgnoredIDs` returns
exactly the first fields of the lines that survive the amended reading: lines
are trimmed, comments and blanks dropped, and a line with at least two fields
is checked against its first `exp:`-prefixed field *among all fields* — an
unparseable date drops the line, and a parsed date other than the zero date
`0001-01-01` that is strictly before the current time deactivates it. -/
theorem getIgnoredIDs_spec (file : Option (List String)) (now : Nat) :
    getIgnoredIDs file now = getIgnoredIDsAmended file now := by
  cases file with
  | none => rfl
  | some lines =>
    show List.foldl _ [] lines = lines.filterMap (ignoreLineIDAmended now)
    rw [foldl_ignore_filterMap]
    simp only [List.nil_append]
    have h : ignoreLineID now = ignoreLineIDAmended now :=
      funext (ignoreLineID_eq_amended now)
    rw [h]

/-! ### C10: a missing ignore file -/

/-- C10: when the ignore file cannot be opened (modelled `IgnoreFile = none`),
the ignored-ID set is empty, `FilterResult` behaves exactly as if an existing
empty ignore file had been given — so no finding is dropped on account of the
ignore file — and, absent a policy file, `FilterResult` reports no error. -/
theorem FilterResult_missing_ignore_file (now : Nat) (res : Result) (opt : FilterOption)
    (h : opt.IgnoreFile = none) :
    getIgnoredIDs opt.IgnoreFile now = [] ∧
    FilterResult now res opt = FilterResult now res { opt with IgnoreFile := some [] } ∧
    (opt.PolicyFile = none → (FilterResult now res opt).2 = none) := by
  obtain ⟨sevs, iu, inf, igf, pf, il, vex⟩ := opt
  simp only at h
  subst h
  refine ⟨rfl, rfl, ?_⟩
  intro hp
  simp only at hp
  subst hp
  rw [FilterResult_none_eq now res _ rfl]

/-- Witness for C10 at the concrete result `c4res` and option `c4opt`
(whose `IgnoreFile` and `PolicyFile` are both absent). -/
theorem FilterResult_missing_ignore_file_witness :
    getIgnoredIDs c4opt.IgnoreFile 0 = [] ∧
    FilterResult 0 c4res c4opt = FilterResult 0 c4res { c4opt with IgnoreFile := some [] } ∧
    (c4opt.PolicyFile = none → (FilterResult 0 c4res c4opt).2 = none) :=
  FilterResult_missing_ignore_file 0 c4res c4opt (by decide)

/-! ### C7: cache-key stability of the image key -/

theorem layerKeysLoop_mapExcept
    (calcKey : String → List (String × Nat) → Option (List (String × Nat)) → ArtifactOption →
      Except String String)
    (a : ImageArtifact) :
    ∀ (diffIDs : List String) (acc : List String),
      layerKeysLoop calcKey a diffIDs acc =
        (mapExcept (fun d =>
          calcKey d a.analyzerVersions (some a.handlerVersions) a.artifactOption) diffIDs).map
          (fun ks => acc ++ ks)
  | [], acc => by simp [layerKeysLoop, mapExcept, Except.map]
  | d :: rest, acc => by
    rw [layerKeysLoop, mapExcept]
    cases h : calcKey d a.analyzerVersions (some a.handlerVersions) a.artifactOption with
    | error e => simp [Except.map]
    | ok k =>
      dsimp only
      rw [layerKeysLoop_mapExcept calcKey a rest (acc ++ [k])]
      cases hm : mapExcept (fun d =>
          calcKey d a.analyzerVersions (some a.handlerVersions) a.artifactOption) rest with
      | error e => simp [Except.map]
      | ok ks => simp [Except.map]

/-- C7: `calcCacheKeys` equals its spec-shaped reading — the image key uses
only the image ID, the config-analyzer versions, `nil` handler versions and a
zero options struct, the layer keys the full data — and, as a consequence,
two artifacts sharing a config-analyzer version set obtain the same image key
whatever their file-analyzer versions, handler versions and scan options. -/
theorem calcCacheKeys_spec
    (calcKey : String → List (String × Nat) → Option (List (String × Nat)) → ArtifactOption →
      Except String String)
    (a b : ImageArtifact) (imageID : String) (diffIDs : List String)
    (hconf : a.configAnalyzerVersions = b.configAnalyzerVersions) :
    calcCacheKeys calcKey a imageID diffIDs = calcCacheKeysSpec calcKey a imageID diffIDs ∧
    (∀ k ks k' ks', calcCacheKeys calcKey a imageID diffIDs = .ok (k, ks) →
      calcCacheKeys calcKey b imageID diffIDs = .ok (k', ks') → k = k') := by
  constructor
  · unfold calcCacheKeys calcCacheKeysSpec
    cases himg : calcKey imageID a.configAnalyzerVersions none ArtifactOption.zero with
    | error e => rfl
    | ok imageKey =>
      rw [layerKeysLoop_mapExcept]
      cases hm : mapExcept (fun d =>
          calcKey d a.analyzerVersions (some a.handlerVersions) a.artifactOption) diffIDs with
      | error e => simp [Except.map]
      | ok ks => simp [Except.map]
  · intro k ks k' ks' ha hb
    unfold calcCacheKeys at ha hb
    rw [← hconf] at hb
    cases himg : calcKey imageID a.configAnalyzerVersions none ArtifactOption.zero with
    | error e =>
      rw [himg] at ha
      cases ha
    | ok imageKey =>
      rw [himg] at ha hb
      have hk : k = imageKey := by
        cases hla : layerKeysLoop calcKey a diffIDs [] with
        | error e => rw [hla] at ha; cases ha
        | ok ks0 =>
          rw [hla] at ha
          injection ha with h'
          injection h' with h1 h2
          exact h1.symm
      have hk' : k' = imageKey := by
        cases hlb : layerKeysLoop calcKey b diffIDs [] with
        | error e => rw [hlb] at hb; cases hb
        | ok ks0 =>
          rw [hlb] at hb
          injection hb with h'
          injection h' with h1 h2
          exact h1.symm
      rw [hk, hk']

/-- Witness for C7 at the concrete key function `c7calcKey` and the concrete
artifacts `c7a`, `c7b`, which share config-analyzer versions but nothing
else. -/
theorem calcCacheKeys_spec_witness :
    c7a.configAnalyzerVersions = c7b.configAnalyzerVersions ∧
    (calcCacheKeys c7calcKey c7a "sha256:img" ["d1", "d2"] =
        calcCacheKeysSpec c7calcKey c7a "sha256:img" ["d1", "d2"] ∧
    (∀ k ks k' ks', calcCacheKeys c7calcKey c7a "sha256:img" ["d1", "d2"] = .ok (k, ks) →
      calcCacheKeys c7calcKey c7b "sha256:img" ["d1", "d2"] = .ok (k', ks') → k = k')) :=
  ⟨by decide, calcCacheKeys_spec c7calcKey c7a c7b "sha256:img" ["d1", "d2"] (by decide)⟩

/-! ### C8: disabling the secret analyzer on base layers -/

theorem baseLayersLoop_eq (diffIDs : List String) (b : Int) :
    ∀ (hs : List History) (i d : Nat) (acc : List String), d ≤ diffIDs.length →
      baseLayersLoop diffIDs b hs i d acc =
        (if d + ((hs.take (b + 1 - i).toNat).countP (fun h => !h.EmptyLayer)) ≤
            diffIDs.length
         then acc ++ ((diffIDs.drop d).take
           ((hs.take (b + 1 - i).toNat).countP (fun h => !h.EmptyLayer)))
         else [])
  | [], i, d, acc, hd => by simp [baseLayersLoop, hd]
  | h :: rest, i, d, acc, hd => by
    rw [baseLayersLoop]
    by_cases hib : (i : Int) > b
    · rw [if_pos hib]
      have h0 : (b + 1 - i).toNat = 0 := by omega
      simp [h0, hd]
    · rw [if_neg hib]
      have hm : (b + 1 - i).toNat = (b + 1 - (i + 1 : Nat)).toNat + 1 := by
        push_cast
        omega
      rw [hm]
      simp only [List.take_succ_cons, List.countP_cons]
      by_cases hel : h.EmptyLayer
      · rw [if_pos hel]
        rw [baseLayersLoop_eq diffIDs b rest (i + 1) d acc hd]
        simp [hel]
      · rw [if_neg hel]
        have hpt : (!h.EmptyLayer) = true := by simp [hel]
        by_cases hlen : diffIDs.length ≤ d
        · rw [if_pos hlen]
          rw [if_neg (by simp [hpt]; omega)]
        · rw [if_neg hlen]
          rw [baseLayersLoop_eq diffIDs b rest (i + 1) (d + 1)
            (acc ++ [diffIDs.getD d ""]) (by omega)]
          simp only [hpt, if_true]
          have hdlt : d < diffIDs.length := by omega
          have hdrop : diffIDs.drop d = diffIDs.getD d "" :: diffIDs.drop (d + 1) := by
            rw [List.getD_eq_getElem diffIDs "" hdlt]
            exact List.drop_eq_getElem_cons hdlt
          by_cases hc : d + 1 + List.countP (fun h => !h.EmptyLayer)
              (List.take (b + 1 - (i + 1 : Nat)).toNat rest) ≤ diffIDs.length
          · rw [if_pos hc, if_pos (by omega)]
            rw [hdrop, List.take_succ_cons, List.append_assoc]
            rfl
          · rw [if_neg hc, if_neg (by omega)]

/-- C8: the guessed base diff IDs are the first `n` diff IDs, where `n` counts
the non-empty-layer history entries up to the base-image index (`nil` when the
diff IDs run out); and every per-layer call made by `inspect` passes the
disabled-analyzer list `[TypeSecret]` exactly when the layer's diff ID is
among the guessed base diff IDs, and the empty list otherwise. -/
theorem inspect_base_layer_secret (baseImageIndex : Int) (diffIDs : List String)
    (cfg : ConfigFile) (layerKeyMap : List (String × LayerInfo)) (layerKeys : List String) :
    guessBaseLayers baseImageIndex diffIDs (some cfg) =
      (if ((cfg.History.take (baseImageIndex + 1).toNat).countP
            (fun h => !h.EmptyLayer)) ≤ diffIDs.length
       then diffIDs.take ((cfg.History.take (baseImageIndex + 1).toNat).countP
         (fun h => !h.EmptyLayer))
       else []) ∧
    (∀ p ∈ inspectCalls (guessBaseLayers baseImageIndex diffIDs (some cfg))
        layerKeyMap layerKeys,
      ((guessBaseLayers baseImageIndex diffIDs (some cfg)).contains p.1.DiffID = true →
        p.2 = [AnalyzerType.typeSecret]) ∧
      ((guessBaseLayers baseImageIndex diffIDs (some cfg)).contains p.1.DiffID = false →
        p.2 = [])) := by
  constructor
  · show baseLayersLoop diffIDs baseImageIndex cfg.History 0 0 [] = _
    rw [baseLayersLoop_eq diffIDs baseImageIndex cfg.History 0 0 [] (Nat.zero_le _)]
    simp
  · intro p hp
    simp only [inspectCalls, List.mem_map] at hp
    obtain ⟨layerKey, _, hpk⟩ := hp
    subst hpk
    constructor
    · intro hc
      simp only [hc, if_true, List.nil_append]
    · intro hc
      simp only [hc]
      rfl

/-! ### C9: the pseudo-Dockerfile reconstruction -/

/-- C9 (counterexample to the literal claim): the code replaces *every*
occurrence of `/bin/sh -c` by `RUN` (`strings.ReplaceAll`), not only the
prefix, and spells the start-period flag `--startPeriod`, not
`--start-period`. -/
theorem buildDockerfile_counterexample :
    buildDockerfile c9durStr (-1) c9cfg =
      "RUN echo RUN hi\nHEALTHCHECK --startPeriod=5000000000ns --retries=3 CMD curl -f localhost\n" ∧
    buildDockerfileClaim c9durStr (-1) c9cfg =
      "RUN echo /bin/sh -c hi\nHEALTHCHECK --start-period=5000000000ns --retries=3 CMD curl -f localhost\n" := by
  refine ⟨by decide, by decide⟩

theorem string_append_assoc (a b c : String) : a ++ b ++ c = a ++ (b ++ c) := by
  obtain ⟨x⟩ := a
  obtain ⟨y⟩ := b
  obtain ⟨z⟩ := c
  show String.mk (x ++ y ++ z) = String.mk (x ++ (y ++ z))
  rw [List.append_assoc]

theorem buildDockerfileLoop_join (durStr : Int → String) (cfg : ConfigFile) :
    ∀ (hs : List History) (buf : String),
      buildDockerfileLoop durStr cfg hs buf =
        buf ++ joinLines (hs.map (fun h => goTrimSpace (historyLine durStr cfg h) ++ "\n"))
  | [], buf => by
    show buf = buf ++ joinLines []
    obtain ⟨x⟩ := buf
    show String.mk x = String.mk (x ++ [])
    rw [List.append_nil]
  | h :: rest, buf => by
    rw [buildDockerfileLoop]
    rw [buildDockerfileLoop_join durStr cfg rest
      (buf ++ goTrimSpace (historyLine durStr cfg h) ++ "\n")]
    simp only [List.map_cons, joinLines]
    rw [string_append_assoc (buf ++ goTrimSpace (historyLine durStr cfg h)) "\n" _,
      string_append_assoc buf (goTrimSpace (historyLine durStr cfg h)) _,
      string_append_assoc (goTrimSpace (historyLine durStr cfg h)) "\n" _]

/-- C9 (amended): the pseudo-Dockerfile is exactly the join of the trimmed
per-entry lines of the history entries strictly after the base-image index —
`/bin/sh -c #(nop)` prefixes stripped, `/bin/sh -c` entries with every
occurrence replaced by `RUN`, `USER` entries kept verbatim, and `HEALTHCHECK`
entries synthesized with the flags `--interval`, `--timeout`, `--startPeriod`
and `--retries` (each only when non-zero) followed by the test command with
`CMD-SHELL` rewritten to `CMD`. -/
theorem buildDockerfile_spec (durStr : Int → String) (baseLayerIndex : Int)
    (cfg : ConfigFile) :
    buildDockerfile durStr baseLayerIndex cfg =
      buildDockerfileAmended durStr baseLayerIndex cfg := by
  unfold buildDockerfile buildDockerfileAmended
  rw [buildDockerfileLoop_join durStr cfg (cfg.History.drop (baseLayerIndex + 1).toNat) ""]
  have hline : historyLine durStr cfg = historyLineAmended durStr cfg := rfl
  rw [hline]
  obtain ⟨x⟩ := joinLines ((cfg.History.drop (baseLayerIndex + 1).toNat).map
    (fun h => goTrimSpace (historyLineAmended durStr cfg h) ++ "\n"))
  show String.mk ([] ++ x) = String.mk x
  rw [List.nil_append]

end Trivy
